import Mathlib

/-!
# WhaleScope — formal model of the whale/movement analysis core

A shallow embedding of the whale-tracking core of the repository
(`src/services/helius.ts`, `src/services/movements.ts`, `src/services/whales.ts`):

* the transaction classifier (`classifyTransactionType`),
* the movement store (`createMovement`, `recordMovement`, `pruneMovements`
  and the query functions),
* the whale registry (`discoverWhales`, `updateWhaleProfile`,
  `getWhaleActivitySummary`),
* the pattern detector (`analyzeWhaleBehavior`,
  `detectAccumulationPattern`, `detectDistributionPattern`).

Modelling conventions:

* JavaScript numbers are modelled as exact rationals (`ℚ`).  The one place
  where IEEE-754 special values (`NaN`, `±Infinity`) are reachable and
  observable — the confidence computation `1 - stdDev/mean` of the pattern
  detectors, and `Math.min`/`Math.max` over a possibly-empty spread — is
  modelled by the dedicated type `JsNum` over `ℝ` (real-valued because the
  source calls `Math.sqrt`).
* JavaScript `Map`s are modelled as association lists in insertion order
  (`Map.set` of a fresh key appends at the end, as in V8).
* Optional fields are modelled with `Option`; optional arrays
  (`tokenTransfers?`, `nativeTransfers?`) are modelled as plain lists since
  every use in the source (`?.length === 1`, `?.length > 0`) treats
  `undefined` and `[]` identically.
* `Date.now()` is passed explicitly as a `now : ℚ` argument to every
  function that reads the clock.
-/

namespace WhaleScope

/-! ## String helpers: JS `String.prototype.includes` and `toUpperCase` -/

/-- Does the character list `s` start with `p`? (helper for substring search) -/
def charsStartWith : List Char → List Char → Bool
  | _, [] => true
  | [], _ :: _ => false
  | a :: s, b :: p => a == b && charsStartWith s p

/-- Does the character list `s` contain `p` as a contiguous run? -/
def charsContain : List Char → List Char → Bool
  | [], p => p.isEmpty
  | s@(_ :: t), p => charsStartWith s p || charsContain t p

/-- JS `s.includes(pat)`: contiguous substring test. -/
def strIncludes (s pat : String) : Bool :=
  charsContain s.toList pat.toList

/-- JS `s.toUpperCase()` (ASCII; all label constants in the source are
ASCII), as a character-wise map over the string's character list. -/
def jsToUpper (s : String) : String :=
  ⟨s.data.map Char.toUpper⟩

/-! ## Transaction data model (`src/types/index.ts`) -/

/-- `TransactionType` from `src/types/index.ts`:
`'swap' | 'transfer' | 'stake' | 'unstake' | 'mint' | 'burn' | 'unknown'`. -/
inductive TransactionType where
  | swap
  | transfer
  | stake
  | unstake
  | mint
  | burn
  | unknown
deriving DecidableEq, Repr

/-- `HeliusTokenTransfer` from `src/types/index.ts`. -/
structure HeliusTokenTransfer where
  fromUserAccount : String
  toUserAccount : String
  mint : String
  tokenAmount : ℚ
deriving DecidableEq, Repr

/-- `HeliusNativeTransfer` from `src/types/index.ts`. -/
structure HeliusNativeTransfer where
  fromUserAccount : String
  toUserAccount : String
  amount : ℚ
deriving DecidableEq, Repr

/-- `HeliusEnhancedTransaction` from `src/types/index.ts` (the fields the
classifier reads; `type` and `source` are optional strings there). -/
structure HeliusEnhancedTransaction where
  signature : String
  timestamp : ℚ
  type : Option String
  source : Option String
  fee : ℚ
  nativeTransfers : List HeliusNativeTransfer
  tokenTransfers : List HeliusTokenTransfer
deriving DecidableEq, Repr

/-! ## Transaction classifier (`classifyTransactionType`, helius.ts) -/

/-- `classifyTransactionType` from `src/services/helius.ts`:

```
const typeStr = tx.type?.toUpperCase() || '';
const source = tx.source?.toUpperCase() || '';
if (typeStr.includes('SWAP') || source.includes('JUPITER') ||
    source.includes('RAYDIUM') || source.includes('ORCA')) return 'swap';
if (typeStr.includes('STAKE') || source.includes('MARINADE') ||
    source.includes('JITO')) {
  if (typeStr.includes('UNSTAKE') || typeStr.includes('WITHDRAW')) return 'unstake';
  return 'stake';
}
if (typeStr.includes('TRANSFER') || tx.tokenTransfers?.length === 1 ||
    tx.nativeTransfers?.length > 0) return 'transfer';
return 'unknown';
```
-/
def classifyTransactionType (tx : HeliusEnhancedTransaction) : TransactionType :=
  let typeStr := (tx.type.map jsToUpper).getD ""
  let source := (tx.source.map jsToUpper).getD ""
  if strIncludes typeStr "SWAP" || strIncludes source "JUPITER" ||
      strIncludes source "RAYDIUM" || strIncludes source "ORCA" then
    .swap
  else if strIncludes typeStr "STAKE" || strIncludes source "MARINADE" ||
      strIncludes source "JITO" then
    if strIncludes typeStr "UNSTAKE" || strIncludes typeStr "WITHDRAW" then
      .unstake
    else
      .stake
  else if strIncludes typeStr "TRANSFER" || tx.tokenTransfers.length == 1 ||
      decide (0 < tx.nativeTransfers.length) then
    .transfer
  else
    .unknown

/-! ## Parsed transactions and whale configuration -/

/-- `TokenHolder` from `src/types/index.ts` (`address`, `amount`, `decimals`,
`uiAmount`; the optional `mint` is modelled as a plain string since the
movement/pattern code only ever reads it on the swap/transfer legs where the
parser always sets it).  `parseTransactionData` builds the `tokenIn` /
`tokenOut` / `transfer` legs without an `address`, so that field is `""`
for such values. -/
structure TokenHolder where
  address : String
  mint : String
  amount : ℚ
  decimals : ℚ
  uiAmount : ℚ
deriving DecidableEq, Repr

/-- `ParsedTransaction` from `src/types/index.ts`. -/
structure ParsedTransaction where
  signature : String
  timestamp : ℚ
  type : TransactionType
  source : String
  fee : ℚ
  success : Bool
  tokenIn : Option TokenHolder := none
  tokenOut : Option TokenHolder := none
  transfer : Option TokenHolder := none
deriving DecidableEq, Repr

/-- `WhaleConfig` as used by `src/services/whales.ts` (the runtime shape of
`DEFAULT_WHALE_CONFIG`). -/
structure WhaleConfig where
  minWhaleHoldingsUsd : ℚ
  minMovementUsd : ℚ
  patternWindowMs : ℚ
  minPatternTxCount : ℚ
deriving DecidableEq, Repr

/-- `DEFAULT_WHALE_CONFIG` from `src/services/whales.ts`. -/
def DEFAULT_WHALE_CONFIG : WhaleConfig :=
  { minWhaleHoldingsUsd := 100000
    minMovementUsd := 10000
    patternWindowMs := 24 * 60 * 60 * 1000
    minPatternTxCount := 3 }

/-! ## Movement store (`src/services/movements.ts`) -/

/-- `MAX_MOVEMENTS_PER_TOKEN` from `src/services/movements.ts`. -/
def MAX_MOVEMENTS_PER_TOKEN : ℕ := 1000

/-- `MAX_MOVEMENT_AGE_MS` from `src/services/movements.ts` (7 days). -/
def MAX_MOVEMENT_AGE_MS : ℚ := 7 * 24 * 60 * 60 * 1000

/-- Movement direction: the `'in' | 'out'` union of the source. -/
inductive MovementDirection where
  | dirIn
  | dirOut
deriving DecidableEq, Repr

/-- The runtime shape of the objects built by `createMovement`
(`src/services/movements.ts`). -/
structure WhaleMovement where
  id : String
  timestamp : ℚ
  whale : String
  type : TransactionType
  tokenMint : String
  amount : ℚ
  usdValue : ℚ
  signature : String
  direction : MovementDirection
deriving DecidableEq, Repr

/-- `generateMovementId` from `src/services/movements.ts`:
```${signature.slice(0, 8)}-${whale.slice(0, 8)}-${Date.now()}```. -/
def generateMovementId (signature whale : String) (now : ℚ) : String :=
  signature.take 8 ++ "-" ++ whale.take 8 ++ "-" ++ toString now

/-- `isSignificantMovement` from `src/services/movements.ts`:
`usdValue >= config.minMovementUsd`. -/
def isSignificantMovement (usdValue : ℚ)
    (config : WhaleConfig := DEFAULT_WHALE_CONFIG) : Bool :=
  config.minMovementUsd ≤ usdValue

/-- The mint of an optional transaction leg, for the source's
`tx.tokenOut?.mint === tokenMint` tests (`undefined` never equals a string). -/
def legMint (leg : Option TokenHolder) : Option String :=
  leg.map TokenHolder.mint

/-- `createMovement` from `src/services/movements.ts`.  Mirrors the branch
structure of the source: swaps check `tokenOut` (buy, direction `in`) before
`tokenIn` (sell, direction `out`); transfers require a matching
`transfer.mint` and are always direction `out`; `stake`/`unstake` take the
amount from `tokenIn` when present (else 0) with direction `out`/`in`;
every other type returns `null`.  Then `usdValue = amount * tokenPrice` and
the movement is dropped unless `isSignificantMovement`. -/
def createMovement (tx : ParsedTransaction) (whale tokenMint : String)
    (tokenPrice : ℚ) (config : WhaleConfig := DEFAULT_WHALE_CONFIG)
    (now : ℚ := 0) : Option WhaleMovement :=
  let core : Option (ℚ × MovementDirection) :=
    match tx.type with
    | .swap =>
      if legMint tx.tokenOut = some tokenMint then
        some ((tx.tokenOut.map TokenHolder.uiAmount).getD 0, .dirIn)
      else if legMint tx.tokenIn = some tokenMint then
        some ((tx.tokenIn.map TokenHolder.uiAmount).getD 0, .dirOut)
      else
        none
    | .transfer =>
      if legMint tx.transfer = some tokenMint then
        some ((tx.transfer.map TokenHolder.uiAmount).getD 0, .dirOut)
      else
        none
    | .stake => some ((tx.tokenIn.map TokenHolder.uiAmount).getD 0, .dirOut)
    | .unstake => some ((tx.tokenIn.map TokenHolder.uiAmount).getD 0, .dirIn)
    | _ => none
  match core with
  | none => none
  | some (amount, direction) =>
    let usdValue := amount * tokenPrice
    if ¬ isSignificantMovement usdValue config then
      none
    else
      some
        { id := generateMovementId tx.signature whale now
          timestamp := tx.timestamp * 1000
          whale := whale
          type := tx.type
          tokenMint := tokenMint
          amount := amount
          usdValue := usdValue
          signature := tx.signature
          direction := direction }

/-- The in-memory movement state of `src/services/movements.ts`: the global
`recentMovements` array (newest first) and the `movementsByToken` map
(association list in insertion order, as a JS `Map`). -/
structure MovementStore where
  recentMovements : List WhaleMovement
  movementsByToken : List (String × List WhaleMovement)
deriving DecidableEq, Repr

/-- The initial (empty) movement store. -/
def emptyStore : MovementStore := ⟨[], []⟩

/-- Lookup in the `movementsByToken` map (`Map.get`). -/
def lookupToken (m : List (String × List WhaleMovement)) (k : String) :
    Option (List WhaleMovement) :=
  match m with
  | [] => none
  | (k', l) :: rest => if k' = k then some l else lookupToken rest k

/-- The `movementsByToken` update performed by `recordMovement`: create the
entry if absent (JS `Map.set` appends fresh keys at the end) and `unshift`
the movement onto it. -/
def addToTokenMap (m : List (String × List WhaleMovement)) (k : String)
    (mv : WhaleMovement) : List (String × List WhaleMovement) :=
  match m with
  | [] => [(k, [mv])]
  | (k', l) :: rest =>
    if k' = k then (k', mv :: l) :: rest else (k', l) :: addToTokenMap rest k mv

/-- One `while`-loop of `pruneMovements`, acting on the REVERSED list
(oldest-inserted element first): pop the current oldest element while the
list is longer than `cap` or that element's timestamp is below `cutoff`.
Both loops of the source have this shape (`cap = MAX_MOVEMENTS_PER_TOKEN * 10`
for the global list, `cap = MAX_MOVEMENTS_PER_TOKEN` per token). -/
def prunedFrom (cap : ℕ) (cutoff : ℚ) : List WhaleMovement → List WhaleMovement
  | [] => []
  | x :: rest =>
    if cap < rest.length + 1 ∨ x.timestamp < cutoff then
      prunedFrom cap cutoff rest
    else
      x :: rest

/-- Prune one stored list (tail pops of the source = head pops of the
reversal). -/
def pruneList (cap : ℕ) (cutoff : ℚ) (l : List WhaleMovement) :
    List WhaleMovement :=
  (prunedFrom cap cutoff l.reverse).reverse

/-- `pruneMovements` from `src/services/movements.ts`: trim the global list
(cap `MAX_MOVEMENTS_PER_TOKEN * 10`), trim every per-token list (cap
`MAX_MOVEMENTS_PER_TOKEN`), and delete per-token entries that became empty. -/
def pruneMovements (now : ℚ) (s : MovementStore) : MovementStore :=
  let cutoff := now - MAX_MOVEMENT_AGE_MS
  { recentMovements :=
      pruneList (MAX_MOVEMENTS_PER_TOKEN * 10) cutoff s.recentMovements
    movementsByToken :=
      (s.movementsByToken.map fun p =>
          (p.1, pruneList MAX_MOVEMENTS_PER_TOKEN cutoff p.2)).filter
        fun p => ¬ p.2.isEmpty }

/-- `recordMovement` from `src/services/movements.ts`: `unshift` onto the
global list, `unshift` onto the (possibly fresh) per-token list, then
`pruneMovements()`. -/
def recordMovement (movement : WhaleMovement) (now : ℚ) (s : MovementStore) :
    MovementStore :=
  pruneMovements now
    { recentMovements := movement :: s.recentMovements
      movementsByToken := addToTokenMap s.movementsByToken movement.tokenMint movement }

/-- A sequence of `recordMovement` calls, each with its own `Date.now()`
reading. -/
def recordSeq (entries : List (WhaleMovement × ℚ)) (s : MovementStore) :
    MovementStore :=
  entries.foldl (fun acc e => recordMovement e.1 e.2 acc) s

/-- `getMovementsByToken` from `src/services/movements.ts` (default limit 50). -/
def getMovementsByToken (s : MovementStore) (tokenMint : String)
    (limit : ℕ := 50) : List WhaleMovement :=
  ((lookupToken s.movementsByToken tokenMint).getD []).take limit

/-- `getAllRecentMovements` from `src/services/movements.ts`
(default limit 100). -/
def getAllRecentMovements (s : MovementStore) (limit : ℕ := 100) :
    List WhaleMovement :=
  s.recentMovements.take limit

/-! ## Whale registry (`src/services/whales.ts`) -/

/-- The runtime behavior values used by `src/services/whales.ts`
(`'unknown' | 'accumulating' | 'distributing' | 'holding'`). -/
inductive WhaleBehavior where
  | unknown
  | accumulating
  | distributing
  | holding
deriving DecidableEq, Repr

/-- The runtime shape of the profile objects built by `discoverWhales`
(`src/services/whales.ts`). -/
structure WhaleProfile where
  address : String
  tokenMint : String
  holdings : ℚ
  usdValue : ℚ
  firstSeen : ℚ
  lastActivity : ℚ
  behavior : WhaleBehavior
  recentTxCount : ℕ
deriving DecidableEq, Repr

/-- Generic JS-`Map` lookup on an insertion-ordered association list. -/
def alistLookup {β : Type} (m : List (String × β)) (k : String) : Option β :=
  match m with
  | [] => none
  | (k', v) :: rest => if k' = k then some v else alistLookup rest k

/-- Generic JS-`Map.set`: update the value in place when the key exists,
append a fresh entry at the end otherwise. -/
def alistSet {β : Type} (m : List (String × β)) (k : String) (v : β) :
    List (String × β) :=
  match m with
  | [] => [(k, v)]
  | (k', v') :: rest =>
    if k' = k then (k', v) :: rest else (k', v') :: alistSet rest k v

/-- The two-level `whaleRegistry` map: token mint → wallet address → profile. -/
abbrev WhaleRegistry := List (String × List (String × WhaleProfile))

/-- `isWhale` from `src/services/whales.ts`:
`usdValue >= config.minWhaleHoldingsUsd`. -/
def isWhale (usdValue : ℚ) (config : WhaleConfig := DEFAULT_WHALE_CONFIG) :
    Bool :=
  config.minWhaleHoldingsUsd ≤ usdValue

/-- `discoverWhales` from `src/services/whales.ts`, after the provider fetch:
the `holders` argument stands for the awaited result of
`getLargestTokenHolders(tokenMint, 100)`.  Each qualifying holder gets a
freshly constructed profile (behavior `unknown`, `recentTxCount` 0,
`firstSeen`/`lastActivity` = now) that is pushed onto the result and stored
in the registry, overwriting any existing entry for that wallet.
`discoverStep` is the body of its `for` loop for one holder. -/
def discoverStep (tokenMint : String) (tokenPrice : ℚ) (config : WhaleConfig)
    (now : ℚ) (acc : List WhaleProfile × WhaleRegistry)
    (holder : TokenHolder) : List WhaleProfile × WhaleRegistry :=
  let usdValue := holder.uiAmount * tokenPrice
  if isWhale usdValue config then
    let profile : WhaleProfile :=
      { address := holder.address
        tokenMint := tokenMint
        holdings := holder.uiAmount
        usdValue := usdValue
        firstSeen := now
        lastActivity := now
        behavior := .unknown
        recentTxCount := 0 }
    (acc.1 ++ [profile],
      alistSet acc.2 tokenMint
        (alistSet ((alistLookup acc.2 tokenMint).getD []) holder.address
          profile))
  else acc

/-- The loop body of `discoverWhales` (see `discoverStep`) folded over the
holder list. -/
def discoverWhales (tokenMint : String) (tokenPrice : ℚ)
    (config : WhaleConfig := DEFAULT_WHALE_CONFIG)
    (holders : List TokenHolder := []) (now : ℚ := 0)
    (registry : WhaleRegistry := []) : List WhaleProfile × WhaleRegistry :=
  holders.foldl (discoverStep tokenMint tokenPrice config now) ([], registry)

/-- `getTrackedWhales` from `src/services/whales.ts`:
`Array.from(registry.values())` in insertion order, `[]` if the token is
unknown. -/
def getTrackedWhales (registry : WhaleRegistry) (tokenMint : String) :
    List WhaleProfile :=
  ((alistLookup registry tokenMint).getD []).map Prod.snd

/-- `getWhaleProfile` from `src/services/whales.ts`. -/
def getWhaleProfile (registry : WhaleRegistry)
    (tokenMint walletAddress : String) : Option WhaleProfile :=
  (alistLookup registry tokenMint).bind fun inner =>
    alistLookup inner walletAddress

/-- A `Partial<WhaleProfile>`: each field optionally provided. -/
structure WhaleProfileUpdate where
  address : Option String := none
  tokenMint : Option String := none
  holdings : Option ℚ := none
  usdValue : Option ℚ := none
  firstSeen : Option ℚ := none
  lastActivity : Option ℚ := none
  behavior : Option WhaleBehavior := none
  recentTxCount : Option ℕ := none
deriving DecidableEq, Repr

/-- `Object.assign(profile, update, { lastActivity: Date.now() })`: provided
fields overwrite the profile's, and `lastActivity` is forced to `now` last
(so it wins even over a `lastActivity` supplied in the update). -/
def applyProfileUpdate (p : WhaleProfile) (u : WhaleProfileUpdate) (now : ℚ) :
    WhaleProfile :=
  { address := u.address.getD p.address
    tokenMint := u.tokenMint.getD p.tokenMint
    holdings := u.holdings.getD p.holdings
    usdValue := u.usdValue.getD p.usdValue
    firstSeen := u.firstSeen.getD p.firstSeen
    lastActivity := now
    behavior := u.behavior.getD p.behavior
    recentTxCount := u.recentTxCount.getD p.recentTxCount }

/-- `updateWhaleProfile` from `src/services/whales.ts`: a no-op when the
token or the wallet is not registered; otherwise merge the update into the
existing profile (in-place object mutation in the source, modelled by
re-storing the merged profile). -/
def updateWhaleProfile (registry : WhaleRegistry)
    (tokenMint walletAddress : String) (update : WhaleProfileUpdate)
    (now : ℚ) : WhaleRegistry :=
  match alistLookup registry tokenMint with
  | none => registry
  | some inner =>
    match alistLookup inner walletAddress with
    | none => registry
    | some profile =>
      alistSet registry tokenMint
        (alistSet inner walletAddress (applyProfileUpdate profile update now))

/-- The summary record returned by `getWhaleActivitySummary`. -/
structure WhaleActivitySummary where
  totalWhales : ℕ
  accumulating : ℕ
  distributing : ℕ
  holding : ℕ
  totalHoldingsUsd : ℚ
deriving DecidableEq, Repr

/-- `getWhaleActivitySummary` from `src/services/whales.ts`: per-behavior
counts over `getTrackedWhales` plus the sum of `usdValue`s.  Profiles with
behavior `unknown` fall in none of the three filtered counts. -/
def getWhaleActivitySummary (registry : WhaleRegistry) (tokenMint : String) :
    WhaleActivitySummary :=
  let whales := getTrackedWhales registry tokenMint
  { totalWhales := whales.length
    accumulating :=
      (whales.filter fun w => decide (w.behavior = .accumulating)).length
    distributing :=
      (whales.filter fun w => decide (w.behavior = .distributing)).length
    holding := (whales.filter fun w => decide (w.behavior = .holding)).length
    totalHoldingsUsd := whales.foldl (fun sum w => sum + w.usdValue) 0 }

/-! ## Behavior analyzer (`analyzeWhaleBehavior`, whales.ts) -/

/-- The four counters accumulated by the `for` loop of
`analyzeWhaleBehavior` (the volumes are accumulated by the source but never
read afterwards). -/
structure BuySellTally where
  buyCount : ℕ
  sellCount : ℕ
  buyVolume : ℚ
  sellVolume : ℚ
deriving DecidableEq, Repr

/-- The window filter of `analyzeWhaleBehavior`:
`transactions.filter(tx => tx.timestamp * 1000 >= windowStart)` with
`windowStart = now - config.patternWindowMs`. -/
def behaviorWindowTxs (transactions : List ParsedTransaction)
    (config : WhaleConfig) (now : ℚ) : List ParsedTransaction :=
  transactions.filter fun tx =>
    decide (now - config.patternWindowMs ≤ tx.timestamp * 1000)

/-- One iteration of the counting loop of `analyzeWhaleBehavior`: a swap
counts a buy when `tokenOut` matches and (independently, possibly both) a
sell when `tokenIn` matches; a transfer with a matching mint counts a buy
unconditionally. -/
def tallyTx (tokenMint : String) (t : BuySellTally) (tx : ParsedTransaction) :
    BuySellTally :=
  if tx.type = .swap then
    let t1 :=
      if legMint tx.tokenOut = some tokenMint then
        { t with
          buyCount := t.buyCount + 1
          buyVolume := t.buyVolume + (tx.tokenOut.map TokenHolder.uiAmount).getD 0 }
      else t
    if legMint tx.tokenIn = some tokenMint then
      { t1 with
        sellCount := t1.sellCount + 1
        sellVolume := t1.sellVolume + (tx.tokenIn.map TokenHolder.uiAmount).getD 0 }
    else t1
  else if tx.type = .transfer ∧ legMint tx.transfer = some tokenMint then
    { t with buyCount := t.buyCount + 1 }
  else t

/-- `analyzeWhaleBehavior` from `src/services/whales.ts`.  The `totalTxs = 0`
case (reachable only when `config.minPatternTxCount ≤ 0`) is spelled out
because there the source computes `buyRatio = 0/0 = NaN`, and both
`NaN >= 0.7` and `NaN <= 0.3` are false, so it returns `'holding'`. -/
def analyzeWhaleBehavior (walletAddress tokenMint : String)
    (transactions : List ParsedTransaction)
    (config : WhaleConfig := DEFAULT_WHALE_CONFIG) (now : ℚ := 0) :
    WhaleBehavior :=
  let _ := walletAddress
  let recentTxs := behaviorWindowTxs transactions config now
  if (recentTxs.length : ℚ) < config.minPatternTxCount then .holding
  else
    let t := recentTxs.foldl (tallyTx tokenMint) ⟨0, 0, 0, 0⟩
    let totalTxs := t.buyCount + t.sellCount
    if (totalTxs : ℚ) < config.minPatternTxCount then .holding
    else if totalTxs = 0 then .holding
    else
      let buyRatio := (t.buyCount : ℚ) / (totalTxs : ℚ)
      if 7 / 10 ≤ buyRatio then .accumulating
      else if buyRatio ≤ 3 / 10 then .distributing
      else .holding

/-! ## JS numbers with special values, for the confidence pipeline

The pattern detectors compute `Math.max(0, Math.min(1, 1 - stdDev/avg))`.
When `avg = 0` this touches IEEE-754 special values, so this one pipeline is
modelled over `ℝ` extended with `±Infinity` and `NaN`. -/

/-- A JavaScript number: finite real, `Infinity`, `-Infinity`, or `NaN`. -/
inductive JsNum where
  | fin (x : ℝ)
  | posInf
  | negInf
  | nan

/-- JS division `a / b` of a finite nonnegative-or-any `a` by finite `b`:
ordinary division for `b ≠ 0`; `±Infinity` for `a ≠ 0, b = 0` (by the sign
of `a`); `NaN` for `0 / 0`. -/
noncomputable def jsDiv (a b : ℝ) : JsNum :=
  if b ≠ 0 then .fin (a / b)
  else if 0 < a then .posInf
  else if a < 0 then .negInf
  else .nan

/-- JS `1 - x`. -/
def jsOneSub : JsNum → JsNum
  | .fin x => .fin (1 - x)
  | .posInf => .negInf
  | .negInf => .posInf
  | .nan => .nan

/-- JS `Math.min(1, x)` (`NaN` propagates). -/
def jsMin1 : JsNum → JsNum
  | .fin x => .fin (min 1 x)
  | .posInf => .fin 1
  | .negInf => .negInf
  | .nan => .nan

/-- JS `Math.max(0, x)` (`NaN` propagates). -/
def jsMax0 : JsNum → JsNum
  | .fin x => .fin (max 0 x)
  | .posInf => .posInf
  | .negInf => .fin 0
  | .nan => .nan

/-- JS `x * 1000` on the values that occur as window timestamps. -/
def jsMul1000 : JsNum → JsNum
  | .fin x => .fin (x * 1000)
  | .posInf => .posInf
  | .negInf => .negInf
  | .nan => .nan

/-- JS `Math.min(...l)` over rationals: `Infinity` on the empty spread. -/
def jsMinList : List ℚ → JsNum
  | [] => .posInf
  | x :: rest => .fin ((rest.foldl min x : ℚ) : ℝ)

/-- JS `Math.max(...l)` over rationals: `-Infinity` on the empty spread. -/
def jsMaxList : List ℚ → JsNum
  | [] => .negInf
  | x :: rest => .fin ((rest.foldl max x : ℚ) : ℝ)

/-- The confidence computation shared by both detectors:
`stdDev = Math.sqrt(variance)`, `cv = stdDev / avg`,
`confidence = Math.max(0, Math.min(1, 1 - cv))`. -/
noncomputable def jsConfidence (variance avg : ℚ) : JsNum :=
  jsMax0 (jsMin1 (jsOneSub (jsDiv (Real.sqrt (variance : ℝ)) (avg : ℝ))))

/-! ## Pattern detectors (`src/services/whales.ts`) -/

/-- The `'accumulation' | 'distribution'` union. -/
inductive PatternKind where
  | accumulation
  | distribution

/-- The runtime shape of the pattern objects built by the detectors.
`startTime`/`endTime` are `Math.min/max(...timestamps) * 1000`, which are
infinite on an empty transaction set, hence `JsNum`. -/
structure Pattern where
  whale : String
  tokenMint : String
  type : PatternKind
  txCount : ℕ
  totalAmount : ℚ
  totalUsdValue : ℚ
  startTime : JsNum
  endTime : JsNum
  confidence : JsNum

/-- `tx.tokenOut?.uiAmount || 0`. -/
def outAmount (tx : ParsedTransaction) : ℚ :=
  (tx.tokenOut.map TokenHolder.uiAmount).getD 0

/-- `tx.tokenIn?.uiAmount || 0`. -/
def inAmount (tx : ParsedTransaction) : ℚ :=
  (tx.tokenIn.map TokenHolder.uiAmount).getD 0

/-- The buy filter of `detectAccumulationPattern`: inside the trailing
pattern window, of type swap, with `tokenOut.mint === tokenMint`. -/
def accumulationBuys (tokenMint : String)
    (transactions : List ParsedTransaction) (config : WhaleConfig)
    (now : ℚ) : List ParsedTransaction :=
  transactions.filter fun tx =>
    if tx.timestamp * 1000 < now - config.patternWindowMs then false
    else if tx.type ≠ .swap then false
    else decide (legMint tx.tokenOut = some tokenMint)

/-- The sell filter of `detectDistributionPattern`: inside the trailing
pattern window, of type swap, with `tokenIn.mint === tokenMint`. -/
def distributionSells (tokenMint : String)
    (transactions : List ParsedTransaction) (config : WhaleConfig)
    (now : ℚ) : List ParsedTransaction :=
  transactions.filter fun tx =>
    if tx.timestamp * 1000 < now - config.patternWindowMs then false
    else if tx.type ≠ .swap then false
    else decide (legMint tx.tokenIn = some tokenMint)

/-- `totalAmount` of `detectAccumulationPattern`:
`buys.reduce((sum, tx) => sum + (tx.tokenOut?.uiAmount || 0), 0)`. -/
def accTotalAmount (tokenMint : String) (transactions : List ParsedTransaction)
    (config : WhaleConfig) (now : ℚ) : ℚ :=
  (accumulationBuys tokenMint transactions config now).foldl
    (fun sum tx => sum + outAmount tx) 0

/-- `avgBuySize = totalAmount / buys.length`. -/
def accAvgSize (tokenMint : String) (transactions : List ParsedTransaction)
    (config : WhaleConfig) (now : ℚ) : ℚ :=
  accTotalAmount tokenMint transactions config now /
    ((accumulationBuys tokenMint transactions config now).length : ℚ)

/-- The population variance of buy sizes computed by
`detectAccumulationPattern`. -/
def accVariance (tokenMint : String) (transactions : List ParsedTransaction)
    (config : WhaleConfig) (now : ℚ) : ℚ :=
  ((accumulationBuys tokenMint transactions config now).foldl
    (fun sum tx =>
      sum + (outAmount tx - accAvgSize tokenMint transactions config now) *
        (outAmount tx - accAvgSize tokenMint transactions config now)) 0) /
    ((accumulationBuys tokenMint transactions config now).length : ℚ)

/-- `detectAccumulationPattern` from `src/services/whales.ts`.  The rational
divisions by `buys.length` coincide with the source's float divisions
whenever `buys` is nonempty; when `buys = []` (reachable only for
`config.minPatternTxCount ≤ 0`) the source's `0/0 = NaN` propagates to a
`NaN` confidence, and this model's `0/0 = 0` convention feeds
`jsConfidence 0 0 = jsDiv 0 0 = NaN` — the same observable confidence. -/
noncomputable def detectAccumulationPattern (walletAddress tokenMint : String)
    (transactions : List ParsedTransaction) (tokenPrice : ℚ)
    (config : WhaleConfig := DEFAULT_WHALE_CONFIG) (now : ℚ := 0) :
    Option Pattern :=
  let buys := accumulationBuys tokenMint transactions config now
  if (buys.length : ℚ) < config.minPatternTxCount then none
  else
    let totalAmount := accTotalAmount tokenMint transactions config now
    let totalUsdValue := totalAmount * tokenPrice
    if totalUsdValue < config.minMovementUsd * config.minPatternTxCount then
      none
    else
      some
        { whale := walletAddress
          tokenMint := tokenMint
          type := .accumulation
          txCount := buys.length
          totalAmount := totalAmount
          totalUsdValue := totalUsdValue
          startTime := jsMul1000 (jsMinList (buys.map ParsedTransaction.timestamp))
          endTime := jsMul1000 (jsMaxList (buys.map ParsedTransaction.timestamp))
          confidence := jsConfidence
            (accVariance tokenMint transactions config now)
            (accAvgSize tokenMint transactions config now) }

/-- `totalAmount` of `detectDistributionPattern`. -/
def distTotalAmount (tokenMint : String)
    (transactions : List ParsedTransaction) (config : WhaleConfig)
    (now : ℚ) : ℚ :=
  (distributionSells tokenMint transactions config now).foldl
    (fun sum tx => sum + inAmount tx) 0

/-- `avgSellSize = totalAmount / sells.length`. -/
def distAvgSize (tokenMint : String) (transactions : List ParsedTransaction)
    (config : WhaleConfig) (now : ℚ) : ℚ :=
  distTotalAmount tokenMint transactions config now /
    ((distributionSells tokenMint transactions config now).length : ℚ)

/-- The population variance of sell sizes computed by
`detectDistributionPattern`. -/
def distVariance (tokenMint : String) (transactions : List ParsedTransaction)
    (config : WhaleConfig) (now : ℚ) : ℚ :=
  ((distributionSells tokenMint transactions config now).foldl
    (fun sum tx =>
      sum + (inAmount tx - distAvgSize tokenMint transactions config now) *
        (inAmount tx - distAvgSize tokenMint transactions config now)) 0) /
    ((distributionSells tokenMint transactions config now).length : ℚ)

/-- `detectDistributionPattern` from `src/services/whales.ts` (mirror image
of `detectAccumulationPattern` over `tokenIn`). -/
noncomputable def detectDistributionPattern (walletAddress tokenMint : String)
    (transactions : List ParsedTransaction) (tokenPrice : ℚ)
    (config : WhaleConfig := DEFAULT_WHALE_CONFIG) (now : ℚ := 0) :
    Option Pattern :=
  let sells := distributionSells tokenMint transactions config now
  if (sells.length : ℚ) < config.minPatternTxCount then none
  else
    let totalAmount := distTotalAmount tokenMint transactions config now
    let totalUsdValue := totalAmount * tokenPrice
    if totalUsdValue < config.minMovementUsd * config.minPatternTxCount then
      none
    else
      some
        { whale := walletAddress
          tokenMint := tokenMint
          type := .distribution
          txCount := sells.length
          totalAmount := totalAmount
          totalUsdValue := totalUsdValue
          startTime := jsMul1000 (jsMinList (sells.map ParsedTransaction.timestamp))
          endTime := jsMul1000 (jsMaxList (sells.map ParsedTransaction.timestamp))
          confidence := jsConfidence
            (distVariance tokenMint transactions config now)
            (distAvgSize tokenMint transactions config now) }

/-! ## Claim C6 — classifier decision order -/

/-- Case-insensitive substring matching, as the specification phrases it. -/
def ciContains (label pat : String) : Bool :=
  strIncludes (jsToUpper label) (jsToUpper pat)

/-- The classifier as the specification describes it (decision order with
first match winning, case-insensitive substring matching on the type and
source labels). -/
def classifySpecC6 (tx : HeliusEnhancedTransaction) : TransactionType :=
  let typeLabel := tx.type.getD ""
  let sourceLabel := tx.source.getD ""
  if ciContains typeLabel "SWAP" || ciContains sourceLabel "JUPITER" ||
      ciContains sourceLabel "RAYDIUM" || ciContains sourceLabel "ORCA" then
    .swap
  else if ciContains typeLabel "STAKE" || ciContains sourceLabel "MARINADE" ||
      ciContains sourceLabel "JITO" then
    if ciContains typeLabel "UNSTAKE" || ciContains typeLabel "WITHDRAW" then
      .unstake
    else
      .stake
  else if ciContains typeLabel "TRANSFER" || tx.tokenTransfers.length == 1 ||
      decide (0 < tx.nativeTransfers.length) then
    .transfer
  else
    .unknown

/-- "no recognizable type/source keywords": none of the classifier's eight
keywords occurs (case-insensitively) in the type or source label. -/
def noClassifierKeywords (tx : HeliusEnhancedTransaction) : Prop :=
  ciContains (tx.type.getD "") "SWAP" = false ∧
  ciContains (tx.type.getD "") "STAKE" = false ∧
  ciContains (tx.type.getD "") "TRANSFER" = false ∧
  ciContains (tx.source.getD "") "JUPITER" = false ∧
  ciContains (tx.source.getD "") "RAYDIUM" = false ∧
  ciContains (tx.source.getD "") "ORCA" = false ∧
  ciContains (tx.source.getD "") "MARINADE" = false ∧
  ciContains (tx.source.getD "") "JITO" = false

/-- Uppercasing the optional label before defaulting equals defaulting
before uppercasing. -/
theorem mapJsToUpper_getD (o : Option String) :
    (o.map jsToUpper).getD "" = jsToUpper (o.getD "") := by
  have h : jsToUpper "" = "" := by decide
  cases o <;> simp [h]

/-- C6: `classifyTransactionType` follows the claimed decision order with
first match winning and case-insensitive substring matching; in particular a
source label uppercasing to "JUPITER" with an empty type label yields `swap`,
and a transaction with exactly one token transfer and no recognizable
keywords yields `transfer`. -/
theorem c6_classifier_decision_order :
    (∀ tx, classifyTransactionType tx = classifySpecC6 tx) ∧
    (∀ tx, tx.source.map jsToUpper = some "JUPITER" → tx.type.getD "" = "" →
      classifyTransactionType tx = .swap) ∧
    (∀ tx, tx.tokenTransfers.length = 1 → noClassifierKeywords tx →
      classifyTransactionType tx = .transfer) := by
  have hSWAP : jsToUpper "SWAP" = "SWAP" := by decide
  have hJUP : jsToUpper "JUPITER" = "JUPITER" := by decide
  have hRAY : jsToUpper "RAYDIUM" = "RAYDIUM" := by decide
  have hORCA : jsToUpper "ORCA" = "ORCA" := by decide
  have hSTAKE : jsToUpper "STAKE" = "STAKE" := by decide
  have hMAR : jsToUpper "MARINADE" = "MARINADE" := by decide
  have hJITO : jsToUpper "JITO" = "JITO" := by decide
  have hUNST : jsToUpper "UNSTAKE" = "UNSTAKE" := by decide
  have hWD : jsToUpper "WITHDRAW" = "WITHDRAW" := by decide
  have hTRF : jsToUpper "TRANSFER" = "TRANSFER" := by decide
  have hup : ∀ tx : HeliusEnhancedTransaction,
      classifyTransactionType tx = classifySpecC6 tx := by
    intro tx
    simp only [classifyTransactionType, classifySpecC6, ciContains,
      mapJsToUpper_getD, hSWAP, hJUP, hRAY, hORCA, hSTAKE, hMAR, hJITO,
      hUNST, hWD, hTRF]
  refine ⟨hup, ?_, ?_⟩
  · intro tx hsrc htype
    have h1 : (tx.type.map jsToUpper).getD "" = "" := by
      rw [mapJsToUpper_getD, htype]; decide
    have h2 : (tx.source.map jsToUpper).getD "" = "JUPITER" := by
      cases h : tx.source with
      | none => rw [h] at hsrc; exact absurd hsrc (by simp)
      | some s =>
        rw [h] at hsrc
        simpa using hsrc
    have hj : strIncludes "JUPITER" "JUPITER" = true := by decide
    simp [classifyTransactionType, h1, h2, hj]
  · intro tx hlen hkw
    obtain ⟨k1, k2, k3, k4, k5, k6, k7, k8⟩ := hkw
    simp only [ciContains, hSWAP, hSTAKE, hTRF, hJUP, hRAY, hORCA, hMAR,
      hJITO] at k1 k2 k3 k4 k5 k6 k7 k8
    simp [classifyTransactionType, mapJsToUpper_getD, k1, k2, k3, k4, k5,
      k6, k7, k8, hlen]

/-- Concrete transactions for the C6 witness. -/
def c6txJupiter : HeliusEnhancedTransaction :=
  { signature := "sig-a", timestamp := 0, type := none,
    source := some "jUpItEr", fee := 0, nativeTransfers := [],
    tokenTransfers := [] }

/-- A transaction with exactly one token transfer and no keywords. -/
def c6txOneTT : HeliusEnhancedTransaction :=
  { signature := "sig-b", timestamp := 0, type := some "ODDTYPE",
    source := some "somewhere", fee := 0, nativeTransfers := [],
    tokenTransfers :=
      [{ fromUserAccount := "a", toUserAccount := "b", mint := "m",
         tokenAmount := 5 }] }

/-- Witness for C6 at concrete inputs. -/
theorem c6_classifier_decision_order_witness :
    classifyTransactionType c6txJupiter = .swap ∧
    classifyTransactionType c6txOneTT = .transfer :=
  ⟨c6_classifier_decision_order.2.1 c6txJupiter (by decide) rfl,
   c6_classifier_decision_order.2.2 c6txOneTT rfl
     (by unfold noClassifierKeywords; decide)⟩

/-! ## Association-list lemmas shared by the registry claims -/

theorem alistLookup_set_self {β : Type} (m : List (String × β)) (k : String)
    (v : β) : alistLookup (alistSet m k v) k = some v := by
  induction m with
  | nil => simp [alistSet, alistLookup]
  | cons hd tl ih =>
    obtain ⟨k', v'⟩ := hd
    by_cases h : k' = k
    · simp [alistSet, alistLookup, h]
    · simp [alistSet, alistLookup, h, ih]

theorem alistLookup_set_other {β : Type} (m : List (String × β))
    (k k' : String) (v : β) (hne : k' ≠ k) :
    alistLookup (alistSet m k v) k' = alistLookup m k' := by
  induction m with
  | nil => simp [alistSet, alistLookup, Ne.symm hne]
  | cons hd tl ih =>
    obtain ⟨k0, v0⟩ := hd
    by_cases h : k0 = k
    · subst h
      simp [alistSet, alistLookup, Ne.symm hne]
    · simp [alistSet, alistLookup, h, ih]

/-! ## Claim C8 — `updateWhaleProfile` merge semantics -/

/-- C8: `updateWhaleProfile` is a no-op (the registry is returned completely
unchanged) when the token or wallet is not registered, and otherwise stores
exactly the merge of the provided fields into the existing profile, forcing
`lastActivity := now`, while every other registry entry is untouched. -/
theorem c8_updateWhaleProfile_merge :
    (∀ (registry : WhaleRegistry) (t a : String) (u : WhaleProfileUpdate)
        (now : ℚ),
      getWhaleProfile registry t a = none →
      updateWhaleProfile registry t a u now = registry) ∧
    (∀ (registry : WhaleRegistry) (t a : String) (u : WhaleProfileUpdate)
        (now : ℚ) (p : WhaleProfile),
      getWhaleProfile registry t a = some p →
      (getWhaleProfile (updateWhaleProfile registry t a u now) t a =
          some
            { address := u.address.getD p.address
              tokenMint := u.tokenMint.getD p.tokenMint
              holdings := u.holdings.getD p.holdings
              usdValue := u.usdValue.getD p.usdValue
              firstSeen := u.firstSeen.getD p.firstSeen
              lastActivity := now
              behavior := u.behavior.getD p.behavior
              recentTxCount := u.recentTxCount.getD p.recentTxCount }) ∧
      (∀ t' a', t' ≠ t ∨ a' ≠ a →
        getWhaleProfile (updateWhaleProfile registry t a u now) t' a' =
          getWhaleProfile registry t' a')) := by
  constructor
  · intro registry t a u now hnone
    unfold getWhaleProfile at hnone
    cases houter : alistLookup registry t with
    | none => simp [updateWhaleProfile, houter]
    | some inner =>
      rw [houter] at hnone
      simp only [Option.some_bind] at hnone
      simp [updateWhaleProfile, houter, hnone]
  · intro registry t a u now p hsome
    unfold getWhaleProfile at hsome
    cases houter : alistLookup registry t with
    | none =>
      rw [houter] at hsome
      exact absurd hsome (by simp)
    | some inner =>
      rw [houter] at hsome
      simp only [Option.some_bind] at hsome
      have hupd : updateWhaleProfile registry t a u now =
          alistSet registry t
            (alistSet inner a (applyProfileUpdate p u now)) := by
        simp [updateWhaleProfile, houter, hsome]
      constructor
      · rw [hupd]
        unfold getWhaleProfile
        rw [alistLookup_set_self]
        simp [alistLookup_set_self, applyProfileUpdate]
      · intro t' a' hne
        rw [hupd]
        unfold getWhaleProfile
        rcases hne with hne | hne
        · rw [alistLookup_set_other _ _ _ _ hne]
        · by_cases ht : t' = t
          · subst ht
            rw [alistLookup_set_self, houter]
            simp [alistLookup_set_other _ _ _ _ hne]
          · rw [alistLookup_set_other _ _ _ _ ht]

/-- Concrete registry data for the C8 witness. -/
def c8profile : WhaleProfile :=
  { address := "addr1", tokenMint := "tokA", holdings := 5, usdValue := 500000
    firstSeen := 10, lastActivity := 20, behavior := .holding
    recentTxCount := 4 }

/-- A registry holding exactly `c8profile` under `("tokA", "addr1")`. -/
def c8registry : WhaleRegistry := [("tokA", [("addr1", c8profile)])]

/-- An update providing only `behavior` and `usdValue`. -/
def c8update : WhaleProfileUpdate :=
  { behavior := some .accumulating, usdValue := some 600000 }

/-- Witness for C8 at concrete inputs: a missing wallet is a no-op, and a
present one receives exactly the merged fields with `lastActivity := 99`. -/
theorem c8_updateWhaleProfile_merge_witness :
    updateWhaleProfile c8registry "tokA" "nobody" c8update 99 = c8registry ∧
    getWhaleProfile (updateWhaleProfile c8registry "tokA" "addr1" c8update 99)
        "tokA" "addr1" =
      some { address := "addr1", tokenMint := "tokA", holdings := 5
             usdValue := 600000, firstSeen := 10, lastActivity := 99
             behavior := .accumulating, recentTxCount := 4 } := by
  constructor
  · exact c8_updateWhaleProfile_merge.1 c8registry "tokA" "nobody" c8update 99
      (by decide)
  · have h := (c8_updateWhaleProfile_merge.2 c8registry "tokA" "addr1"
      c8update 99 c8profile (by decide)).1
    rw [h]
    decide

/-! ## Claim C10 — activity summary counts -/

/-- Counting helper for C10: the three behavior-filtered counts never exceed
the list length, and are strictly below it as soon as some profile has
behavior `unknown`. -/
theorem c10_counts (l : List WhaleProfile) :
    ((l.filter fun w => decide (w.behavior = .accumulating)).length +
        (l.filter fun w => decide (w.behavior = .distributing)).length +
        (l.filter fun w => decide (w.behavior = .holding)).length ≤
      l.length) ∧
    ((∃ w ∈ l, w.behavior = .unknown) →
      (l.filter fun w => decide (w.behavior = .accumulating)).length +
          (l.filter fun w => decide (w.behavior = .distributing)).length +
          (l.filter fun w => decide (w.behavior = .holding)).length <
        l.length) := by
  induction l with
  | nil => simp
  | cons hd tl ih =>
    obtain ⟨ihle, ihlt⟩ := ih
    cases hb : hd.behavior with
    | unknown =>
      constructor
      · simp only [List.filter_cons, hb]
        simp only [List.length_cons]
        simp [hb]
        omega
      · intro _
        simp only [List.filter_cons, hb]
        simp only [List.length_cons]
        simp [hb]
        omega
    | accumulating =>
      constructor
      · simp [List.filter_cons, hb]
        omega
      · intro h
        rcases h with ⟨w, hw, hwu⟩
        cases hw with
        | head =>
          rw [hb] at hwu
          exact absurd hwu (by decide)
        | tail _ hw2 =>
          have := ihlt ⟨w, hw2, hwu⟩
          simp [List.filter_cons, hb]
          omega
    | distributing =>
      constructor
      · simp [List.filter_cons, hb]
        omega
      · intro h
        rcases h with ⟨w, hw, hwu⟩
        cases hw with
        | head =>
          rw [hb] at hwu
          exact absurd hwu (by decide)
        | tail _ hw2 =>
          have := ihlt ⟨w, hw2, hwu⟩
          simp [List.filter_cons, hb]
          omega
    | holding =>
      constructor
      · simp [List.filter_cons, hb]
        omega
      · intro h
        rcases h with ⟨w, hw, hwu⟩
        cases hw with
        | head =>
          rw [hb] at hwu
          exact absurd hwu (by decide)
        | tail _ hw2 =>
          have := ihlt ⟨w, hw2, hwu⟩
          simp [List.filter_cons, hb]
          omega

/-- C10: in every `getWhaleActivitySummary`, the three behavior counts sum
to at most `totalWhales`, strictly less whenever some tracked whale still
has behavior `unknown` (unknown whales are counted in `totalWhales` but in
none of the three categories). -/
theorem c10_summary_counts (registry : WhaleRegistry) (t : String) :
    (getWhaleActivitySummary registry t).accumulating +
        (getWhaleActivitySummary registry t).distributing +
        (getWhaleActivitySummary registry t).holding ≤
      (getWhaleActivitySummary registry t).totalWhales ∧
    ((∃ w ∈ getTrackedWhales registry t, w.behavior = .unknown) →
      (getWhaleActivitySummary registry t).accumulating +
          (getWhaleActivitySummary registry t).distributing +
          (getWhaleActivitySummary registry t).holding <
        (getWhaleActivitySummary registry t).totalWhales) := by
  unfold getWhaleActivitySummary
  exact c10_counts (getTrackedWhales registry t)

/-- A registry with one `unknown` whale, for the C10 witness. -/
def c10registry : WhaleRegistry :=
  [("tokA", [("addr1", { c8profile with behavior := .unknown })])]

/-- Witness for C10: with one freshly discovered (`unknown`) whale the
behavior counts sum strictly below `totalWhales`. -/
theorem c10_summary_counts_witness :
    (getWhaleActivitySummary c10registry "tokA").accumulating +
        (getWhaleActivitySummary c10registry "tokA").distributing +
        (getWhaleActivitySummary c10registry "tokA").holding <
      (getWhaleActivitySummary c10registry "tokA").totalWhales :=
  (c10_summary_counts c10registry "tokA").2
    ⟨{ c8profile with behavior := .unknown }, by decide, rfl⟩

/-! ## Claim C9 — rediscovery replaces profiles wholesale -/

/-- The profile freshly constructed by `discoverWhales` for a qualifying
holder. -/
def freshProfile (tokenMint : String) (tokenPrice : ℚ) (now : ℚ)
    (holder : TokenHolder) : WhaleProfile :=
  { address := holder.address
    tokenMint := tokenMint
    holdings := holder.uiAmount
    usdValue := holder.uiAmount * tokenPrice
    firstSeen := now
    lastActivity := now
    behavior := .unknown
    recentTxCount := 0 }

/-- One `discoverStep` never disturbs the registry entry of a wallet other
than the processed holder's, and processing a holder equal to `h` (re)sets
exactly `freshProfile h`. -/
theorem c9_step_entry (t : String) (price : ℚ) (cfg : WhaleConfig) (now : ℚ)
    (acc : List WhaleProfile × WhaleRegistry) (holder : TokenHolder)
    (addr : String) :
    getWhaleProfile (discoverStep t price cfg now acc holder).2 t addr =
      if holder.address = addr ∧ isWhale (holder.uiAmount * price) cfg then
        some (freshProfile t price now holder)
      else
        getWhaleProfile acc.2 t addr := by
  unfold discoverStep
  by_cases hq : isWhale (holder.uiAmount * price) cfg
  · simp only [hq, if_true]
    by_cases ha : holder.address = addr
    · subst ha
      simp only [true_and, if_pos rfl]
      unfold getWhaleProfile freshProfile
      rw [alistLookup_set_self]
      simp [alistLookup_set_self]
    · simp only [ha, false_and, if_false]
      unfold getWhaleProfile
      by_cases ht : alistLookup acc.2 t = none
      · rw [alistLookup_set_self, ht]
        simp [ht, alistLookup_set_other _ _ _ _ (Ne.symm ha)]
        unfold alistLookup
        rfl
      · obtain ⟨inner, hinner⟩ := Option.ne_none_iff_exists'.mp ht
        rw [alistLookup_set_self, hinner]
        simp [hinner, alistLookup_set_other _ _ _ _ (Ne.symm ha)]
  · simp [hq]

/-- Folding `discoverStep` over holders that either equal `h` or carry a
different address keeps `h`'s fresh entry in place. -/
theorem c9_fold_preserve (t : String) (price : ℚ) (cfg : WhaleConfig)
    (now : ℚ) (h : TokenHolder) :
    ∀ (holders : List TokenHolder) (acc : List WhaleProfile × WhaleRegistry),
      (∀ h' ∈ holders, h'.address = h.address → h' = h) →
      getWhaleProfile acc.2 t h.address = some (freshProfile t price now h) →
      getWhaleProfile
          (holders.foldl (discoverStep t price cfg now) acc).2 t h.address =
        some (freshProfile t price now h) := by
  intro holders
  induction holders with
  | nil => intro acc _ hacc; exact hacc
  | cons hd tl ih =>
    intro acc huniq hacc
    rw [List.foldl_cons]
    refine ih _ (fun h' hmem => huniq h' (List.mem_cons_of_mem hd hmem)) ?_
    rw [c9_step_entry]
    by_cases hcase : hd.address = h.address ∧ isWhale (hd.uiAmount * price) cfg
    · have hhd : hd = h := huniq hd (List.mem_cons_self hd tl) hcase.1
      subst hhd
      simp [hcase]
    · simp only [hcase, if_false]
      exact hacc

/-- C9: when `discoverWhales` runs again over a holder list containing a
wallet (uniquely, by address) whose USD value passes the whale threshold,
the registry entry previously stored for that wallet — whatever behavior,
activity timestamps or transaction counts it had accumulated — is replaced
wholesale by a freshly constructed profile: behavior `unknown`,
`recentTxCount` 0, `firstSeen` and `lastActivity` both set to the discovery
time. -/
theorem c9_discover_replaces_profile (registry : WhaleRegistry) (t : String)
    (price : ℚ) (cfg : WhaleConfig) (holders : List TokenHolder) (now : ℚ)
    (h : TokenHolder) (pOld : WhaleProfile)
    (hold : getWhaleProfile registry t h.address = some pOld)
    (hmem : h ∈ holders)
    (huniq : ∀ h' ∈ holders, h'.address = h.address → h' = h)
    (hq : isWhale (h.uiAmount * price) cfg = true) :
    getWhaleProfile (discoverWhales t price cfg holders now registry).2 t
        h.address =
      some
        { address := h.address, tokenMint := t, holdings := h.uiAmount
          usdValue := h.uiAmount * price, firstSeen := now
          lastActivity := now, behavior := .unknown, recentTxCount := 0 } := by
  have key : ∀ (holders' : List TokenHolder)
      (acc : List WhaleProfile × WhaleRegistry),
      h ∈ holders' →
      (∀ h' ∈ holders', h'.address = h.address → h' = h) →
      getWhaleProfile
          (holders'.foldl (discoverStep t price cfg now) acc).2 t h.address =
        some (freshProfile t price now h) := by
    intro holders'
    induction holders' with
    | nil => intro acc hmem' _; exact absurd hmem' (List.not_mem_nil h)
    | cons hd tl ih =>
      intro acc hmem' huniq'
      rw [List.foldl_cons]
      by_cases hhd : hd = h
      · subst hhd
        refine c9_fold_preserve t price cfg now hd tl
          (discoverStep t price cfg now acc hd)
          (fun h' hm => huniq' h' (List.mem_cons_of_mem hd hm)) ?_
        rw [c9_step_entry]
        simp [hq]
      · have hmem2 : h ∈ tl := by
          cases hmem' with
          | head => exact absurd rfl hhd
          | tail _ hmm => exact hmm
        exact ih _ hmem2 (fun h' hm => huniq' h' (List.mem_cons_of_mem hd hm))
  unfold discoverWhales
  exact key holders ([], registry) hmem huniq

/-- A previously analyzed whale profile for the C9 witness. -/
def c9oldProfile : WhaleProfile :=
  { address := "whale1", tokenMint := "tokA", holdings := 7
    usdValue := 700000, firstSeen := 5, lastActivity := 50
    behavior := .distributing, recentTxCount := 12 }

/-- A holder record rediscovering the same wallet. -/
def c9holder : TokenHolder :=
  { address := "whale1", mint := "tokA", amount := 8, decimals := 0
    uiAmount := 8 }

/-- Witness for C9: rediscovery at time 77 resets the stored profile. -/
theorem c9_discover_replaces_profile_witness :
    getWhaleProfile
        (discoverWhales "tokA" 100000 DEFAULT_WHALE_CONFIG [c9holder] 77
          [("tokA", [("whale1", c9oldProfile)])]).2 "tokA" "whale1" =
      some
        { address := "whale1", tokenMint := "tokA", holdings := 8
          usdValue := 800000, firstSeen := 77, lastActivity := 77
          behavior := .unknown, recentTxCount := 0 } := by
  have h :=
    c9_discover_replaces_profile [("tokA", [("whale1", c9oldProfile)])] "tokA"
      100000 DEFAULT_WHALE_CONFIG [c9holder] 77 c9holder c9oldProfile
      (by unfold getWhaleProfile alistLookup c9holder c9oldProfile; decide)
      (List.mem_singleton_self c9holder)
      (by intro h' hm _; simpa using hm)
      (by simp only [isWhale, c9holder, DEFAULT_WHALE_CONFIG,
            decide_eq_true_eq]
          norm_num)
  norm_num [c9holder] at h
  exact h

/-! ## Pruning lemmas shared by the movement-store claims -/

theorem mem_prunedFrom {cap : ℕ} {cutoff : ℚ} :
    ∀ {r : List WhaleMovement} {x : WhaleMovement},
      x ∈ prunedFrom cap cutoff r → x ∈ r := by
  intro r
  induction r with
  | nil => intro x hx; exact absurd hx (by simp [prunedFrom])
  | cons hd tl ih =>
    intro x hx
    unfold prunedFrom at hx
    by_cases hc : cap < tl.length + 1 ∨ hd.timestamp < cutoff
    · rw [if_pos hc] at hx
      exact List.mem_cons_of_mem hd (ih hx)
    · rwa [if_neg hc] at hx

theorem length_prunedFrom (cap : ℕ) (cutoff : ℚ) :
    ∀ r : List WhaleMovement, (prunedFrom cap cutoff r).length ≤ cap := by
  intro r
  induction r with
  | nil => simp [prunedFrom]
  | cons hd tl ih =>
    unfold prunedFrom
    by_cases hc : cap < tl.length + 1 ∨ hd.timestamp < cutoff
    · rw [if_pos hc]; exact ih
    · rw [if_neg hc]
      push_neg at hc
      simpa using hc.1

/-- On a list sorted with oldest (smallest timestamp) first, everything the
prune loop keeps is at least `cutoff` old. -/
theorem fresh_prunedFrom (cap : ℕ) (cutoff : ℚ) :
    ∀ r : List WhaleMovement,
      r.Pairwise (fun a b => a.timestamp ≤ b.timestamp) →
      ∀ x ∈ prunedFrom cap cutoff r, cutoff ≤ x.timestamp := by
  intro r
  induction r with
  | nil => intro _ x hx; exact absurd hx (by simp [prunedFrom])
  | cons hd tl ih =>
    intro hsort x hx
    rw [List.pairwise_cons] at hsort
    unfold prunedFrom at hx
    by_cases hc : cap < tl.length + 1 ∨ hd.timestamp < cutoff
    · rw [if_pos hc] at hx
      exact ih hsort.2 x hx
    · rw [if_neg hc] at hx
      push_neg at hc
      rcases List.mem_cons.mp hx with hx | hx
      · rw [hx]; exact hc.2
      · exact le_trans hc.2 (hsort.1 x hx)

/-- The prune loop keeps the list sorted (oldest first). -/
theorem sorted_prunedFrom (cap : ℕ) (cutoff : ℚ) :
    ∀ r : List WhaleMovement,
      r.Pairwise (fun a b => a.timestamp ≤ b.timestamp) →
      (prunedFrom cap cutoff r).Pairwise
        (fun a b => a.timestamp ≤ b.timestamp) := by
  intro r
  induction r with
  | nil => intro _; simp [prunedFrom]
  | cons hd tl ih =>
    intro hsort
    unfold prunedFrom
    by_cases hc : cap < tl.length + 1 ∨ hd.timestamp < cutoff
    · rw [if_pos hc]
      exact ih (List.pairwise_cons.mp hsort).2
    · rwa [if_neg hc]

/-- When every element is fresh, the prune loop only trims the list down to
the cap, dropping the oldest (front of the reversed list) elements. -/
theorem prunedFrom_of_fresh (cap : ℕ) (cutoff : ℚ) :
    ∀ r : List WhaleMovement,
      (∀ x ∈ r, cutoff ≤ x.timestamp) →
      prunedFrom cap cutoff r = r.drop (r.length - cap) := by
  intro r
  induction r with
  | nil => intro _; simp [prunedFrom]
  | cons hd tl ih =>
    intro hfresh
    unfold prunedFrom
    by_cases hlen : cap < tl.length + 1
    · rw [if_pos (Or.inl hlen)]
      rw [ih fun x hx => hfresh x (List.mem_cons_of_mem hd hx)]
      have h1 : (hd :: tl).length - cap = (tl.length - cap) + 1 := by
        simp only [List.length_cons]
        omega
      rw [h1, List.drop_succ_cons]
    · have hc : ¬(cap < tl.length + 1 ∨ hd.timestamp < cutoff) := by
        push_neg
        exact ⟨not_lt.mp hlen, hfresh hd (List.mem_cons_self hd tl)⟩
      rw [if_neg hc]
      have : (hd :: tl).length - cap = 0 := by
        simp only [List.length_cons]
        omega
      rw [this, List.drop_zero]

/-- A fresh newest element survives at the newest end of the prune loop. -/
theorem prunedFrom_append_last (cap : ℕ) (cutoff : ℚ) (m : WhaleMovement)
    (hfresh : cutoff ≤ m.timestamp) (hcap : 1 ≤ cap) :
    ∀ r : List WhaleMovement,
      ∃ r', prunedFrom cap cutoff (r ++ [m]) = r' ++ [m] := by
  intro r
  induction r with
  | nil =>
    refine ⟨[], ?_⟩
    rw [List.nil_append]
    unfold prunedFrom
    rw [if_neg]
    push_neg
    exact ⟨by simpa using hcap, hfresh⟩
  | cons hd tl ih =>
    rw [List.cons_append]
    unfold prunedFrom
    by_cases hc : cap < (tl ++ [m]).length + 1 ∨ hd.timestamp < cutoff
    · rw [if_pos hc]; exact ih
    · rw [if_neg hc]
      exact ⟨hd :: tl, rfl⟩

/-- All-fresh lists are pruned to their newest `cap` elements. -/
theorem pruneList_of_fresh (cap : ℕ) (cutoff : ℚ) (l : List WhaleMovement)
    (hfresh : ∀ x ∈ l, cutoff ≤ x.timestamp) :
    pruneList cap cutoff l = l.take cap := by
  unfold pruneList
  rw [prunedFrom_of_fresh cap cutoff l.reverse (by simpa using hfresh)]
  rw [List.length_reverse]
  by_cases h : cap ≤ l.length
  · rw [← List.reverse_take]
    simp
  · have h0 : l.length - cap = 0 := by omega
    rw [h0, List.drop_zero, List.reverse_reverse, List.take_of_length_le]
    omega

/-- A fresh movement freshly `unshift`ed onto a list survives pruning at the
head. -/
theorem pruneList_cons_head (cap : ℕ) (cutoff : ℚ) (m : WhaleMovement)
    (l : List WhaleMovement) (hfresh : cutoff ≤ m.timestamp)
    (hcap : 1 ≤ cap) :
    ∃ rest, pruneList cap cutoff (m :: l) = m :: rest := by
  unfold pruneList
  obtain ⟨r', hr'⟩ :=
    prunedFrom_append_last cap cutoff m hfresh hcap l.reverse
  rw [show (m :: l).reverse = l.reverse ++ [m] by simp, hr']
  exact ⟨r'.reverse, by simp⟩

/-- `lookupToken` after the `recordMovement` insertion step. -/
theorem lookupToken_addToTokenMap (m : List (String × List WhaleMovement))
    (k : String) (mv : WhaleMovement) :
    lookupToken (addToTokenMap m k mv) k =
      some (mv :: (lookupToken m k).getD []) := by
  induction m with
  | nil => simp [addToTokenMap, lookupToken]
  | cons hd tl ih =>
    obtain ⟨k0, l0⟩ := hd
    by_cases h : k0 = k
    · simp [addToTokenMap, lookupToken, h]
    · simp [addToTokenMap, lookupToken, h, ih]

/-- `lookupToken` through the per-token prune-and-filter pass, provided the
looked-up list does not get pruned away entirely. -/
theorem lookupToken_pruneMap (cap : ℕ) (cutoff : ℚ) (k : String)
    (l : List WhaleMovement) :
    ∀ m : List (String × List WhaleMovement),
      lookupToken m k = some l →
      pruneList cap cutoff l ≠ [] →
      lookupToken
          ((m.map fun p => (p.1, pruneList cap cutoff p.2)).filter
            fun p => ¬ p.2.isEmpty) k =
        some (pruneList cap cutoff l) := by
  intro m
  induction m with
  | nil => intro h; exact absurd h (by simp [lookupToken])
  | cons hd tl ih =>
    obtain ⟨k0, l0⟩ := hd
    intro hlook hne
    by_cases h : k0 = k
    · subst h
      rw [show lookupToken ((k0, l0) :: tl) k0 = some l0 by
            simp [lookupToken]] at hlook
      obtain rfl : l0 = l := Option.some.inj hlook
      simp only [List.map_cons, List.filter_cons]
      rw [if_pos (by simpa [List.isEmpty_iff] using hne)]
      simp [lookupToken]
    · rw [show lookupToken ((k0, l0) :: tl) k = lookupToken tl k by
            simp [lookupToken, h]] at hlook
      simp only [List.map_cons, List.filter_cons]
      by_cases hkeep : (pruneList cap cutoff l0).isEmpty = false
      · rw [if_pos (by simp [hkeep])]
        rw [show ∀ rest, lookupToken ((k0, pruneList cap cutoff l0) :: rest) k
              = lookupToken rest k from fun rest => by simp [lookupToken, h]]
        exact ih hlook hne
      · rw [if_neg (by simpa using hkeep)]
        exact ih hlook hne

/-! ## Claim C4 — a recorded movement heads both query views -/

/-- C4 (amended): provided the recorded movement is not older than the
maximum age at recording time, it is the head of `getMovementsByToken` for
its token and of `getAllRecentMovements` immediately after `recordMovement`
returns, whatever the prior store state. -/
theorem c4_record_head (s : MovementStore) (m : WhaleMovement) (now : ℚ)
    (hfresh : now - MAX_MOVEMENT_AGE_MS ≤ m.timestamp) :
    (getMovementsByToken (recordMovement m now s) m.tokenMint).head? =
        some m ∧
    (getAllRecentMovements (recordMovement m now s)).head? = some m := by
  constructor
  · have hlook := lookupToken_addToTokenMap s.movementsByToken m.tokenMint m
    obtain ⟨rest, hrest⟩ :=
      pruneList_cons_head MAX_MOVEMENTS_PER_TOKEN
        (now - MAX_MOVEMENT_AGE_MS) m
        ((lookupToken s.movementsByToken m.tokenMint).getD []) hfresh
        (by norm_num [MAX_MOVEMENTS_PER_TOKEN])
    have hfull := lookupToken_pruneMap MAX_MOVEMENTS_PER_TOKEN
      (now - MAX_MOVEMENT_AGE_MS) m.tokenMint
      (m :: (lookupToken s.movementsByToken m.tokenMint).getD [])
      (addToTokenMap s.movementsByToken m.tokenMint m) hlook
      (by rw [hrest]; simp)
    unfold getMovementsByToken recordMovement pruneMovements
    simp only [hfull, Option.getD_some, hrest]
    rw [show (50 : ℕ) = 49 + 1 from rfl, List.take_succ_cons]
    rfl
  · obtain ⟨rest, hrest⟩ :=
      pruneList_cons_head (MAX_MOVEMENTS_PER_TOKEN * 10)
        (now - MAX_MOVEMENT_AGE_MS) m s.recentMovements hfresh
        (by norm_num [MAX_MOVEMENTS_PER_TOKEN])
    unfold getAllRecentMovements recordMovement pruneMovements
    simp only [hrest]
    rw [show (100 : ℕ) = 99 + 1 from rfl, List.take_succ_cons]
    rfl

/-- A fresh movement for the C4 witness. -/
def c4fresh : WhaleMovement :=
  { id := "sig00001-whale001-1000", timestamp := 1000000000000
    whale := "whale001", type := .swap, tokenMint := "T", amount := 2
    usdValue := 20000, signature := "sig00001xyz", direction := .dirIn }

/-- Witness for C4: recording a fresh movement into the empty store puts it
at the head of both views. -/
theorem c4_record_head_witness :
    (getMovementsByToken (recordMovement c4fresh 1000000000000 emptyStore)
        c4fresh.tokenMint).head? = some c4fresh ∧
    (getAllRecentMovements
        (recordMovement c4fresh 1000000000000 emptyStore)).head? =
      some c4fresh :=
  c4_record_head emptyStore c4fresh 1000000000000
    (by norm_num [c4fresh, MAX_MOVEMENT_AGE_MS])

/-- The transaction whose `createMovement` output the C4 counterexample
records: a large swap buy whose on-chain timestamp is old. -/
def c4tx : ParsedTransaction :=
  { signature := "sig00002abc", timestamp := 0, type := .swap
    source := "JUPITER", fee := 0, success := true
    tokenOut := some { address := "", mint := "T", amount := 2, decimals := 0
                       uiAmount := 2 } }

/-- The movement `createMovement` produces for `c4tx` at `Date.now() = 999`. -/
def c4mov : WhaleMovement :=
  { id := generateMovementId "sig00002abc" "whale001" 999, timestamp := 0
    whale := "whale001", type := .swap, tokenMint := "T", amount := 2
    usdValue := 20000, signature := "sig00002abc", direction := .dirIn }

/-- Counterexample to C4 as stated: `c4mov` is produced by `createMovement`
(a significant swap buy), yet after `recordMovement` at a time more than 7
days past its timestamp, both query views are empty — the movement is
age-pruned in the very insertion that recorded it, so it is not at index 0
of either view. -/
theorem c4_record_head_counterexample :
    createMovement c4tx "whale001" "T" 10000 DEFAULT_WHALE_CONFIG 999 =
        some c4mov ∧
    getMovementsByToken (recordMovement c4mov 1000000000000 emptyStore)
        "T" = [] ∧
    getAllRecentMovements (recordMovement c4mov 1000000000000 emptyStore) =
      [] := by
  refine ⟨?_, ?_, ?_⟩
  · norm_num [createMovement, c4tx, c4mov, legMint, isSignificantMovement,
      DEFAULT_WHALE_CONFIG]
  · norm_num [recordMovement, pruneMovements, pruneList, prunedFrom,
      addToTokenMap, emptyStore, getMovementsByToken, lookupToken, c4mov,
      MAX_MOVEMENT_AGE_MS, MAX_MOVEMENTS_PER_TOKEN]
  · norm_num [recordMovement, pruneMovements, pruneList, prunedFrom,
      addToTokenMap, emptyStore, getAllRecentMovements, c4mov,
      MAX_MOVEMENT_AGE_MS, MAX_MOVEMENTS_PER_TOKEN]

/-! ## Claim C1 — age pruning across insertion sequences -/

/-- Every movement stored anywhere in the store (global list or any
per-token list). -/
def allMovements (s : MovementStore) : List WhaleMovement :=
  s.recentMovements ++ (s.movementsByToken.map Prod.snd).flatten

/-- All stored lists are sorted newest-first by timestamp. -/
def storeSorted (s : MovementStore) : Prop :=
  s.recentMovements.Pairwise (fun a b => b.timestamp ≤ a.timestamp) ∧
  ∀ p ∈ s.movementsByToken,
    p.2.Pairwise (fun a b => b.timestamp ≤ a.timestamp)

/-- Every stored movement has timestamp at most `b`. -/
def storeLE (s : MovementStore) (b : ℚ) : Prop :=
  ∀ x ∈ allMovements s, x.timestamp ≤ b

theorem mem_allMovements_global {s : MovementStore} {x : WhaleMovement}
    (h : x ∈ s.recentMovements) : x ∈ allMovements s :=
  List.mem_append_left _ h

theorem mem_allMovements_token {s : MovementStore} {x : WhaleMovement}
    {p : String × List WhaleMovement} (hp : p ∈ s.movementsByToken)
    (hx : x ∈ p.2) : x ∈ allMovements s :=
  List.mem_append_right _
    (List.mem_flatten.mpr ⟨p.2, List.mem_map_of_mem Prod.snd hp, hx⟩)

theorem mem_pruneList {cap : ℕ} {cutoff : ℚ} {l : List WhaleMovement}
    {x : WhaleMovement} (h : x ∈ pruneList cap cutoff l) : x ∈ l := by
  unfold pruneList at h
  rw [List.mem_reverse] at h
  have := mem_prunedFrom h
  rwa [List.mem_reverse] at this

theorem pruneList_sorted {cap : ℕ} {cutoff : ℚ} {l : List WhaleMovement}
    (h : l.Pairwise (fun a b => b.timestamp ≤ a.timestamp)) :
    (pruneList cap cutoff l).Pairwise
      (fun a b => b.timestamp ≤ a.timestamp) := by
  unfold pruneList
  rw [List.pairwise_reverse]
  exact sorted_prunedFrom cap cutoff l.reverse (List.pairwise_reverse.mpr h)

theorem pruneList_fresh {cap : ℕ} {cutoff : ℚ} {l : List WhaleMovement}
    (h : l.Pairwise (fun a b => b.timestamp ≤ a.timestamp)) :
    ∀ x ∈ pruneList cap cutoff l, cutoff ≤ x.timestamp := by
  intro x hx
  unfold pruneList at hx
  rw [List.mem_reverse] at hx
  exact fresh_prunedFrom cap cutoff l.reverse (List.pairwise_reverse.mpr h)
    x hx

theorem addToTokenMap_cons_eq (k : String) (l : List WhaleMovement)
    (tl : List (String × List WhaleMovement)) (mv : WhaleMovement) :
    addToTokenMap ((k, l) :: tl) k mv = (k, mv :: l) :: tl := by
  unfold addToTokenMap
  rw [if_pos rfl]

theorem addToTokenMap_cons_ne (k0 k : String) (l : List WhaleMovement)
    (tl : List (String × List WhaleMovement)) (mv : WhaleMovement)
    (h : k0 ≠ k) :
    addToTokenMap ((k0, l) :: tl) k mv = (k0, l) :: addToTokenMap tl k mv := by
  conv_lhs => unfold addToTokenMap
  rw [if_neg h]

theorem mem_addToTokenMap {mv : WhaleMovement} {k : String} :
    ∀ {m : List (String × List WhaleMovement)}
      {q : String × List WhaleMovement},
      q ∈ addToTokenMap m k mv → ∀ x ∈ q.2,
        x = mv ∨ ∃ q' ∈ m, x ∈ q'.2 := by
  intro m
  induction m with
  | nil =>
    intro q hq x hx
    simp only [addToTokenMap, List.mem_singleton] at hq
    subst hq
    simp only [List.mem_singleton] at hx
    exact Or.inl hx
  | cons hd tl ih =>
    obtain ⟨k0, l0⟩ := hd
    intro q hq x hx
    by_cases h : k0 = k
    · subst h
      rw [addToTokenMap_cons_eq, List.mem_cons] at hq
      rcases hq with hq | hq
      · subst hq
        simp only [List.mem_cons] at hx
        rcases hx with hx | hx
        · exact Or.inl hx
        · exact Or.inr ⟨(k0, l0), List.mem_cons_self _ _, hx⟩
      · exact Or.inr ⟨q, List.mem_cons_of_mem _ hq, hx⟩
    · rw [addToTokenMap_cons_ne k0 k l0 tl mv h, List.mem_cons] at hq
      rcases hq with hq | hq
      · subst hq
        exact Or.inr ⟨(k0, l0), List.mem_cons_self _ _, hx⟩
      · rcases ih hq x hx with h1 | ⟨q', hq', hx'⟩
        · exact Or.inl h1
        · exact Or.inr ⟨q', List.mem_cons_of_mem _ hq', hx'⟩

theorem sorted_addToTokenMap {mv : WhaleMovement} {k : String} :
    ∀ {m : List (String × List WhaleMovement)},
      (∀ p ∈ m, p.2.Pairwise (fun a b => b.timestamp ≤ a.timestamp)) →
      (∀ p ∈ m, ∀ x ∈ p.2, x.timestamp ≤ mv.timestamp) →
      ∀ q ∈ addToTokenMap m k mv,
        q.2.Pairwise (fun a b => b.timestamp ≤ a.timestamp) := by
  intro m
  induction m with
  | nil =>
    intro _ _ q hq
    simp only [addToTokenMap, List.mem_singleton] at hq
    subst hq
    simp
  | cons hd tl ih =>
    obtain ⟨k0, l0⟩ := hd
    intro hsort hle q hq
    by_cases h : k0 = k
    · subst h
      rw [addToTokenMap_cons_eq, List.mem_cons] at hq
      rcases hq with hq | hq
      · subst hq
        refine List.pairwise_cons.mpr ⟨?_, hsort _ (List.mem_cons_self _ _)⟩
        intro x hx
        exact hle (k0, l0) (List.mem_cons_self _ _) x hx
      · exact hsort q (List.mem_cons_of_mem _ hq)
    · rw [addToTokenMap_cons_ne k0 k l0 tl mv h, List.mem_cons] at hq
      rcases hq with hq | hq
      · subst hq
        exact hsort (k0, l0) (List.mem_cons_self _ _)
      · exact ih (fun p hp => hsort p (List.mem_cons_of_mem _ hp))
          (fun p hp => hle p (List.mem_cons_of_mem _ hp)) q hq

theorem mem_pruneMovements {now : ℚ} {s : MovementStore} {x : WhaleMovement}
    (h : x ∈ allMovements (pruneMovements now s)) : x ∈ allMovements s := by
  unfold allMovements pruneMovements at h
  rcases List.mem_append.mp h with h | h
  · exact mem_allMovements_global (mem_pruneList h)
  · rw [List.mem_flatten] at h
    obtain ⟨l, hl, hx⟩ := h
    rw [List.mem_map] at hl
    obtain ⟨q, hq, rfl⟩ := hl
    rw [List.mem_filter] at hq
    obtain ⟨hq, _⟩ := hq
    rw [List.mem_map] at hq
    obtain ⟨p, hp, rfl⟩ := hq
    exact mem_allMovements_token hp (mem_pruneList hx)

theorem sorted_pruneMovements {now : ℚ} {s : MovementStore}
    (h : storeSorted s) : storeSorted (pruneMovements now s) := by
  obtain ⟨hg, ht⟩ := h
  refine ⟨pruneList_sorted hg, ?_⟩
  intro p hp
  simp only [pruneMovements, List.mem_filter, List.mem_map] at hp
  obtain ⟨⟨q, hq, rfl⟩, _⟩ := hp
  exact pruneList_sorted (ht q hq)

theorem fresh_pruneMovements {now : ℚ} {s : MovementStore}
    (h : storeSorted s) :
    ∀ x ∈ allMovements (pruneMovements now s),
      now - MAX_MOVEMENT_AGE_MS ≤ x.timestamp := by
  obtain ⟨hg, ht⟩ := h
  intro x hx
  unfold allMovements pruneMovements at hx
  rcases List.mem_append.mp hx with hx | hx
  · exact pruneList_fresh hg x hx
  · rw [List.mem_flatten] at hx
    obtain ⟨l, hl, hxl⟩ := hx
    rw [List.mem_map] at hl
    obtain ⟨q, hq, rfl⟩ := hl
    rw [List.mem_filter] at hq
    obtain ⟨hq, _⟩ := hq
    rw [List.mem_map] at hq
    obtain ⟨p, hp, rfl⟩ := hq
    exact pruneList_fresh (ht p hp) x hxl

theorem sorted_insert {s : MovementStore} {m : WhaleMovement}
    (hs : storeSorted s) (hle : storeLE s m.timestamp) :
    storeSorted
      ⟨m :: s.recentMovements,
        addToTokenMap s.movementsByToken m.tokenMint m⟩ := by
  obtain ⟨hg, ht⟩ := hs
  constructor
  · exact List.pairwise_cons.mpr
      ⟨fun x hx => hle x (mem_allMovements_global hx), hg⟩
  · exact sorted_addToTokenMap ht
      (fun p hp x hx => hle x (mem_allMovements_token hp hx))

theorem mem_insert {s : MovementStore} {m : WhaleMovement}
    {x : WhaleMovement}
    (h : x ∈ allMovements
      ⟨m :: s.recentMovements,
        addToTokenMap s.movementsByToken m.tokenMint m⟩) :
    x = m ∨ x ∈ allMovements s := by
  unfold allMovements at h
  rcases List.mem_append.mp h with h | h
  · rcases List.mem_cons.mp h with h | h
    · exact Or.inl h
    · exact Or.inr (mem_allMovements_global h)
  · rw [List.mem_flatten] at h
    obtain ⟨l, hl, hx⟩ := h
    rw [List.mem_map] at hl
    obtain ⟨q, hq, rfl⟩ := hl
    rcases mem_addToTokenMap hq x hx with h1 | ⟨q', hq', hx'⟩
    · exact Or.inl h1
    · exact Or.inr (mem_allMovements_token hq' hx')

theorem record_sorted {s : MovementStore} {m : WhaleMovement} {now : ℚ}
    (hs : storeSorted s) (hle : storeLE s m.timestamp) :
    storeSorted (recordMovement m now s) :=
  sorted_pruneMovements (sorted_insert hs hle)

theorem record_le {s : MovementStore} {m : WhaleMovement} {now : ℚ} {b : ℚ}
    (hm : m.timestamp ≤ b) (hle : storeLE s b) :
    storeLE (recordMovement m now s) b := by
  intro x hx
  rcases mem_insert (mem_pruneMovements hx) with h | h
  · rw [h]; exact hm
  · exact hle x h

theorem record_fresh {s : MovementStore} {m : WhaleMovement} {now : ℚ}
    (hs : storeSorted s) (hle : storeLE s m.timestamp) :
    ∀ x ∈ allMovements (recordMovement m now s),
      now - MAX_MOVEMENT_AGE_MS ≤ x.timestamp :=
  fresh_pruneMovements (sorted_insert hs hle)

/-- Invariant of a monotone insertion sequence: sortedness is preserved and
every stored timestamp stays below any bound dominating the inserts. -/
theorem recordSeq_inv :
    ∀ (entries : List (WhaleMovement × ℚ)) (s : MovementStore),
      storeSorted s →
      (∀ p ∈ entries, storeLE s p.1.timestamp) →
      entries.Pairwise (fun a b => a.1.timestamp ≤ b.1.timestamp) →
      storeSorted (recordSeq entries s) ∧
      ∀ b, (∀ p ∈ entries, p.1.timestamp ≤ b) → storeLE s b →
        storeLE (recordSeq entries s) b := by
  intro entries
  induction entries with
  | nil => intro s hs _ _; exact ⟨hs, fun _ _ hb => hb⟩
  | cons e rest ih =>
    obtain ⟨m, now⟩ := e
    intro s hs hle hmono
    rw [List.pairwise_cons] at hmono
    have hsle : storeLE s m.timestamp := hle (m, now) (List.mem_cons_self _ _)
    have hs' : storeSorted (recordMovement m now s) := record_sorted hs hsle
    have hle' : ∀ p ∈ rest, storeLE (recordMovement m now s) p.1.timestamp :=
      fun p hp =>
        record_le (hmono.1 p hp)
          (hle p (List.mem_cons_of_mem _ hp))
    have key := ih (recordMovement m now s) hs' hle' hmono.2
    refine ⟨key.1, ?_⟩
    intro b hb hsb
    exact key.2 b (fun p hp => hb p (List.mem_cons_of_mem _ hp))
      (record_le (hb (m, now) (List.mem_cons_self _ _)) hsb)

theorem storeSorted_empty : storeSorted emptyStore := by
  constructor <;> simp [emptyStore]

theorem storeLE_empty (b : ℚ) : storeLE emptyStore b := by
  intro x hx
  simp [allMovements, emptyStore] at hx

theorem lookupToken_mem :
    ∀ {m : List (String × List WhaleMovement)} {k : String}
      {l : List WhaleMovement}, lookupToken m k = some l → (k, l) ∈ m := by
  intro m
  induction m with
  | nil => intro k l h; exact absurd h (by simp [lookupToken])
  | cons hd tl ih =>
    obtain ⟨k0, l0⟩ := hd
    intro k l h
    by_cases hk : k0 = k
    · subst hk
      rw [show lookupToken ((k0, l0) :: tl) k0 = some l0 by
            simp [lookupToken]] at h
      obtain rfl := Option.some.inj h
      exact List.mem_cons_self _ _
    · rw [show lookupToken ((k0, l0) :: tl) k = lookupToken tl k by
            simp [lookupToken, hk]] at h
      exact List.mem_cons_of_mem _ (ih h)

/-- C1 (amended): for every insertion sequence whose movements arrive in
nondecreasing timestamp order, after the final `recordMovement` call (with
clock reading `now`) no movement older than `MAX_MOVEMENT_AGE_MS` before
`now` remains in the global list or in any per-token list, and hence none
appears in `getAllRecentMovements` or any `getMovementsByToken` result. -/
theorem c1_age_pruning (entries : List (WhaleMovement × ℚ))
    (m : WhaleMovement) (now : ℚ)
    (hmono : (entries ++ [(m, now)]).Pairwise
      (fun a b => a.1.timestamp ≤ b.1.timestamp)) :
    (∀ x ∈ (recordSeq (entries ++ [(m, now)]) emptyStore).recentMovements,
        now - MAX_MOVEMENT_AGE_MS ≤ x.timestamp) ∧
    (∀ p ∈ (recordSeq (entries ++ [(m, now)]) emptyStore).movementsByToken,
        ∀ x ∈ p.2, now - MAX_MOVEMENT_AGE_MS ≤ x.timestamp) ∧
    (∀ lim,
        ∀ x ∈ getAllRecentMovements
          (recordSeq (entries ++ [(m, now)]) emptyStore) lim,
        now - MAX_MOVEMENT_AGE_MS ≤ x.timestamp) ∧
    (∀ t lim,
        ∀ x ∈ getMovementsByToken
          (recordSeq (entries ++ [(m, now)]) emptyStore) t lim,
        now - MAX_MOVEMENT_AGE_MS ≤ x.timestamp) := by
  rw [List.pairwise_append] at hmono
  obtain ⟨h1, _, h3⟩ := hmono
  have hsplit : recordSeq (entries ++ [(m, now)]) emptyStore =
      recordMovement m now (recordSeq entries emptyStore) := by
    unfold recordSeq
    rw [List.foldl_append]
    rfl
  have inv := recordSeq_inv entries emptyStore storeSorted_empty
    (fun p _ => storeLE_empty _) h1
  have hle : storeLE (recordSeq entries emptyStore) m.timestamp :=
    inv.2 m.timestamp
      (fun p hp => h3 p hp (m, now) (List.mem_singleton_self _))
      (storeLE_empty _)
  have main : ∀ x ∈ allMovements
      (recordMovement m now (recordSeq entries emptyStore)),
      now - MAX_MOVEMENT_AGE_MS ≤ x.timestamp := record_fresh inv.1 hle
  rw [hsplit]
  refine ⟨?_, ?_, ?_, ?_⟩
  · intro x hx
    exact main x (mem_allMovements_global hx)
  · intro p hp x hx
    exact main x (mem_allMovements_token hp hx)
  · intro lim x hx
    exact main x (mem_allMovements_global (List.mem_of_mem_take hx))
  · intro t lim x hx
    unfold getMovementsByToken at hx
    have hx' := List.mem_of_mem_take hx
    cases hlook : lookupToken
        (recordMovement m now (recordSeq entries emptyStore)).movementsByToken
        t with
    | none => rw [hlook] at hx'; exact absurd hx' (by simp)
    | some l =>
      rw [hlook] at hx'
      exact main x
        (mem_allMovements_token (lookupToken_mem hlook) (by simpa using hx'))

/-- Fresh movement inserted first in the C1 counterexample sequence. -/
def c1fresh : WhaleMovement :=
  { id := "c1f", timestamp := 1000000000000, whale := "w", type := .swap
    tokenMint := "T", amount := 1, usdValue := 15000, signature := "s1"
    direction := .dirIn }

/-- Stale movement (timestamp 0, more than 7 days before the clock reading
10^12) inserted second. -/
def c1old : WhaleMovement :=
  { id := "c1o", timestamp := 0, whale := "w", type := .swap
    tokenMint := "T", amount := 1, usdValue := 15000, signature := "s2"
    direction := .dirOut }

/-- Counterexample to C1 as stated: recording a fresh movement and then a
7-days-stale one leaves the stale movement in the global list, in the
per-token list, and in the `getAllRecentMovements` query result — the prune
loop only pops from the tail, and the tail holds the fresh movement. -/
theorem c1_age_pruning_counterexample :
    c1old.timestamp < 1000000000000 - MAX_MOVEMENT_AGE_MS ∧
    (recordSeq [(c1fresh, 1000000000000), (c1old, 1000000000000)]
        emptyStore).recentMovements = [c1old, c1fresh] ∧
    lookupToken
        (recordSeq [(c1fresh, 1000000000000), (c1old, 1000000000000)]
          emptyStore).movementsByToken "T" = some [c1old, c1fresh] ∧
    c1old ∈ getAllRecentMovements
      (recordSeq [(c1fresh, 1000000000000), (c1old, 1000000000000)]
        emptyStore) := by
  have heval : recordSeq [(c1fresh, 1000000000000), (c1old, 1000000000000)]
      emptyStore =
      ⟨[c1old, c1fresh], [("T", [c1old, c1fresh])]⟩ := by
    norm_num [recordSeq, List.foldl, recordMovement, pruneMovements,
      pruneList, prunedFrom, addToTokenMap, emptyStore, c1fresh, c1old,
      MAX_MOVEMENT_AGE_MS, MAX_MOVEMENTS_PER_TOKEN]
    simp
  refine ⟨by norm_num [c1old, MAX_MOVEMENT_AGE_MS], ?_, ?_, ?_⟩
  · simp [heval]
  · simp [heval, lookupToken]
  · simp [heval, getAllRecentMovements]

/-- Witness for the amended C1 at a concrete two-insert monotone sequence. -/
theorem c1_age_pruning_witness :
    1000000000000 - MAX_MOVEMENT_AGE_MS ≤ c1fresh.timestamp := by
  have h := (c1_age_pruning [(c1fresh, 999999999999)] c1fresh 1000000000000
    (by simp [c1fresh])).1
  simp only [List.singleton_append] at h
  apply h c1fresh
  have heval : recordSeq
      [(c1fresh, 999999999999), (c1fresh, 1000000000000)] emptyStore =
      ⟨[c1fresh, c1fresh], [("T", [c1fresh, c1fresh])]⟩ := by
    norm_num [recordSeq, List.foldl, recordMovement, pruneMovements,
      pruneList, prunedFrom, addToTokenMap, emptyStore, c1fresh,
      MAX_MOVEMENT_AGE_MS, MAX_MOVEMENTS_PER_TOKEN]
    simp
  rw [heval]
  simp

/-! ## Claim C5 — per-token cap of 1000 -/

/-- Prepending then capping twice equals capping once. -/
theorem take_append_take (n : ℕ) (A B : List WhaleMovement) :
    (A ++ B.take n).take n = (A ++ B).take n := by
  rw [List.take_append_eq_append_take, List.take_append_eq_append_take,
    List.take_take]
  have h : min (n - A.length) n = n - A.length := by omega
  rw [h]

/-- Single-token insertion sequences: when every inserted movement is fresh
at every insertion time, the per-token list tracks the newest
`MAX_MOVEMENTS_PER_TOKEN` inserted movements exactly. -/
theorem c5_fold (t : String) :
    ∀ (entries : List (WhaleMovement × ℚ)) (G L : List WhaleMovement),
      L.length ≤ MAX_MOVEMENTS_PER_TOKEN →
      (∀ p ∈ entries, p.1.tokenMint = t) →
      (∀ p ∈ entries, ∀ x ∈ L,
        p.2 - MAX_MOVEMENT_AGE_MS ≤ x.timestamp) →
      (∀ p ∈ entries, ∀ q ∈ entries,
        p.2 - MAX_MOVEMENT_AGE_MS ≤ q.1.timestamp) →
      (recordSeq entries
          ⟨G, if L = [] then [] else [(t, L)]⟩).movementsByToken =
        (if (entries.map Prod.fst).reverse ++ L = [] then []
          else
            [(t, ((entries.map Prod.fst).reverse ++ L).take
              MAX_MOVEMENTS_PER_TOKEN)]) := by
  intro entries
  induction entries with
  | nil =>
    intro G L hlen _ _ _
    by_cases hL : L = []
    · simp [recordSeq, hL]
    · simp only [recordSeq, List.foldl_nil, if_neg hL, List.map_nil,
        List.reverse_nil, List.nil_append, if_neg hL]
      rw [List.take_of_length_le hlen]
  | cons e rest ih =>
    obtain ⟨m, now⟩ := e
    intro G L hlen htok hfreshL hfreshE
    have hmt : m.tokenMint = t := htok (m, now) (List.mem_cons_self _ _)
    have hmfresh : now - MAX_MOVEMENT_AGE_MS ≤ m.timestamp :=
      hfreshE (m, now) (List.mem_cons_self _ _) (m, now)
        (List.mem_cons_self _ _)
    have hLfresh : ∀ x ∈ L, now - MAX_MOVEMENT_AGE_MS ≤ x.timestamp :=
      hfreshL (m, now) (List.mem_cons_self _ _)
    have hinsert :
        addToTokenMap (if L = [] then [] else [(t, L)]) m.tokenMint m =
          [(t, m :: L)] := by
      by_cases hL : L = []
      · subst hL
        rw [if_pos rfl, hmt]
        rfl
      · rw [if_neg hL, hmt, addToTokenMap_cons_eq]
    have hprune :
        pruneList MAX_MOVEMENTS_PER_TOKEN (now - MAX_MOVEMENT_AGE_MS)
          (m :: L) = (m :: L).take MAX_MOVEMENTS_PER_TOKEN := by
      refine pruneList_of_fresh _ _ _ ?_
      intro x hx
      rcases List.mem_cons.mp hx with hx | hx
      · rw [hx]; exact hmfresh
      · exact hLfresh x hx
    have htake : ((m :: L).take MAX_MOVEMENTS_PER_TOKEN) ≠ [] := by
      simp only [MAX_MOVEMENTS_PER_TOKEN]
      rw [show (1000 : ℕ) = 999 + 1 from rfl, List.take_succ_cons]
      simp
    have hstep : recordMovement m now ⟨G, if L = [] then [] else [(t, L)]⟩ =
        ⟨pruneList (MAX_MOVEMENTS_PER_TOKEN * 10) (now - MAX_MOVEMENT_AGE_MS)
            (m :: G),
          [(t, (m :: L).take MAX_MOVEMENTS_PER_TOKEN)]⟩ := by
      unfold recordMovement pruneMovements
      simp only [hinsert, List.map_cons, List.map_nil, List.filter_cons,
        List.filter_nil, hprune]
      simp [htake, List.isEmpty_iff]
    have ihres := ih
      (pruneList (MAX_MOVEMENTS_PER_TOKEN * 10) (now - MAX_MOVEMENT_AGE_MS)
        (m :: G))
      ((m :: L).take MAX_MOVEMENTS_PER_TOKEN)
      (by
        rw [List.length_take]
        omega)
      (fun p hp => htok p (List.mem_cons_of_mem _ hp))
      (by
        intro p hp x hx
        rcases List.mem_cons.mp (List.mem_of_mem_take hx) with hx | hx
        · rw [hx]
          exact hfreshE p (List.mem_cons_of_mem _ hp) (m, now)
            (List.mem_cons_self _ _)
        · exact hfreshL p (List.mem_cons_of_mem _ hp) x hx)
      (fun p hp q hq =>
        hfreshE p (List.mem_cons_of_mem _ hp) q (List.mem_cons_of_mem _ hq))
    have hseq : recordSeq ((m, now) :: rest)
        ⟨G, if L = [] then [] else [(t, L)]⟩ =
        recordSeq rest
          ⟨pruneList (MAX_MOVEMENTS_PER_TOKEN * 10)
              (now - MAX_MOVEMENT_AGE_MS) (m :: G),
            [(t, (m :: L).take MAX_MOVEMENTS_PER_TOKEN)]⟩ := by
      rw [show recordSeq ((m, now) :: rest)
          ⟨G, if L = [] then [] else [(t, L)]⟩ =
          recordSeq rest (recordMovement m now
            ⟨G, if L = [] then [] else [(t, L)]⟩) from rfl]
      rw [hstep]
    rw [hseq]
    rw [if_neg htake] at ihres
    rw [ihres]
    have hne1 : (rest.map Prod.fst).reverse ++
        (m :: L).take MAX_MOVEMENTS_PER_TOKEN ≠ [] := by
      simp [htake]
    have hne2 : (((m, now) :: rest).map Prod.fst).reverse ++ L ≠ [] := by
      simp
    rw [if_neg hne1, if_neg hne2]
    rw [take_append_take]
    simp [List.append_assoc]

/-- C5 (amended): (a) starting from the empty store, inserting more than
`MAX_MOVEMENTS_PER_TOKEN` (1000) movements for a single token — all fresh
relative to every insertion time — leaves exactly the 1000 most recently
inserted movements in that token's list; (b) unconditionally, after any
`recordMovement` call returns, no per-token list exceeds 1000 entries. -/
theorem c5_per_token_cap :
    (∀ (entries : List (WhaleMovement × ℚ)) (t : String),
      MAX_MOVEMENTS_PER_TOKEN < entries.length →
      (∀ p ∈ entries, p.1.tokenMint = t) →
      (∀ p ∈ entries, ∀ q ∈ entries,
        p.2 - MAX_MOVEMENT_AGE_MS ≤ q.1.timestamp) →
      (recordSeq entries emptyStore).movementsByToken =
        [(t, ((entries.map Prod.fst).reverse).take MAX_MOVEMENTS_PER_TOKEN)] ∧
      (((entries.map Prod.fst).reverse).take MAX_MOVEMENTS_PER_TOKEN).length =
        MAX_MOVEMENTS_PER_TOKEN) ∧
    (∀ (s : MovementStore) (m : WhaleMovement) (now : ℚ)
        (p : String × List WhaleMovement),
      p ∈ (recordMovement m now s).movementsByToken →
      p.2.length ≤ MAX_MOVEMENTS_PER_TOKEN) := by
  constructor
  · intro entries t hcount htok hfresh
    have hne : entries ≠ [] := by
      intro h
      rw [h] at hcount
      exact absurd hcount (by simp)
    have key := c5_fold t entries [] []
      (by simp)
      htok
      (by intro p _ x hx; exact absurd hx (List.not_mem_nil x))
      hfresh
    rw [show (⟨[], if ([] : List WhaleMovement) = [] then []
          else [(t, [])]⟩ : MovementStore) = emptyStore from by
        rw [if_pos rfl]; rfl] at key
    rw [List.append_nil] at key
    have hAne : (entries.map Prod.fst).reverse ≠ [] := by
      simp [hne]
    rw [if_neg hAne] at key
    refine ⟨key, ?_⟩
    rw [List.length_take, List.length_reverse, List.length_map]
    omega
  · intro s m now p hp
    unfold recordMovement pruneMovements at hp
    rw [List.mem_filter] at hp
    obtain ⟨hp, _⟩ := hp
    rw [List.mem_map] at hp
    obtain ⟨q, _, rfl⟩ := hp
    unfold pruneList
    rw [List.length_reverse]
    exact length_prunedFrom _ _ _

/-- A stale movement (timestamp more than 7 days before the clock). -/
def c5stale : WhaleMovement :=
  { id := "c5s", timestamp := 0, whale := "w", type := .swap
    tokenMint := "T", amount := 1, usdValue := 15000, signature := "s5"
    direction := .dirOut }

/-- Inserting the stale movement leaves the store empty. -/
theorem c5_stale_noop :
    recordMovement c5stale 1000000000000 emptyStore = emptyStore := by
  norm_num [recordMovement, pruneMovements, pruneList, prunedFrom,
    addToTokenMap, emptyStore, c5stale, MAX_MOVEMENT_AGE_MS,
    MAX_MOVEMENTS_PER_TOKEN]

/-- Any number of stale insertions leaves the store empty. -/
theorem c5_stale_seq (n : ℕ) :
    recordSeq (List.replicate n (c5stale, (1000000000000 : ℚ)))
      emptyStore = emptyStore := by
  induction n with
  | zero => rfl
  | succ k ihn =>
    rw [List.replicate_succ]
    unfold recordSeq at ihn ⊢
    rw [List.foldl_cons, c5_stale_noop]
    exact ihn

/-- Counterexample to C5 as stated: 1001 `recordMovement` calls for token
"T" (each with a stale timestamp) leave that token's list absent — 0
entries, not exactly 1000 — because age pruning runs in the same pass. -/
theorem c5_per_token_cap_counterexample :
    (recordSeq (List.replicate 1001 (c5stale, (1000000000000 : ℚ)))
        emptyStore).movementsByToken = [] ∧
    lookupToken
        (recordSeq (List.replicate 1001 (c5stale, (1000000000000 : ℚ)))
          emptyStore).movementsByToken "T" = none ∧
    MAX_MOVEMENTS_PER_TOKEN <
      (List.replicate 1001 (c5stale, (1000000000000 : ℚ))).length := by
  rw [c5_stale_seq 1001]
  refine ⟨rfl, rfl, ?_⟩
  rw [List.length_replicate]
  norm_num [MAX_MOVEMENTS_PER_TOKEN]

/-- A fresh movement for the C5 witness. -/
def c5freshm : WhaleMovement :=
  { id := "c5f", timestamp := 1000000000000, whale := "w", type := .swap
    tokenMint := "T", amount := 1, usdValue := 15000, signature := "s6"
    direction := .dirIn }

/-- Witness for the amended C5: 1001 fresh insertions leave exactly the 1000
most recent movements for "T", and a single insertion respects the cap. -/
theorem c5_per_token_cap_witness :
    (recordSeq (List.replicate 1001 (c5freshm, (1000000000000 : ℚ)))
        emptyStore).movementsByToken =
      [("T", List.replicate 1000 c5freshm)] ∧
    ([c5freshm] : List WhaleMovement).length ≤ MAX_MOVEMENTS_PER_TOKEN := by
  constructor
  · have h := (c5_per_token_cap.1
      (List.replicate 1001 (c5freshm, (1000000000000 : ℚ))) "T"
      (by
        rw [List.length_replicate]
        norm_num [MAX_MOVEMENTS_PER_TOKEN])
      (by
        intro p hp
        rw [List.eq_of_mem_replicate hp]
        rfl)
      (by
        intro p hp q hq
        rw [List.eq_of_mem_replicate hp, List.eq_of_mem_replicate hq]
        norm_num [c5freshm, MAX_MOVEMENT_AGE_MS])).1
    rw [h]
    rw [show (List.replicate 1001
        (c5freshm, (1000000000000 : ℚ))).map Prod.fst =
        List.replicate 1001 c5freshm from by rw [List.map_replicate]]
    rw [List.reverse_replicate, List.take_replicate]
    norm_num [MAX_MOVEMENTS_PER_TOKEN]
  · refine c5_per_token_cap.2 emptyStore c5freshm 1000000000000
      ("T", [c5freshm]) ?_
    have heval : (recordMovement c5freshm 1000000000000
        emptyStore).movementsByToken = [("T", [c5freshm])] := by
      norm_num [recordMovement, pruneMovements, pruneList, prunedFrom,
        addToTokenMap, emptyStore, c5freshm, MAX_MOVEMENT_AGE_MS,
        MAX_MOVEMENTS_PER_TOKEN]
    rw [heval]
    simp

/-! ## Claim C2 — `createMovement` characterization -/

/-- "unrelated to the tracked token", as the claim words it: a swap where
neither leg's mint matches, or a transfer whose mint differs. -/
def c2Unrelated (tx : ParsedTransaction) (tokenMint : String) : Prop :=
  (tx.type = .swap ∧ legMint tx.tokenOut ≠ some tokenMint ∧
    legMint tx.tokenIn ≠ some tokenMint) ∨
  (tx.type = .transfer ∧ legMint tx.transfer ≠ some tokenMint)

/-- The movement amount as the claim assigns it: swap-buy → `tokenOut`
amount, swap-sell → `tokenIn` amount, matching transfer → transfer amount,
stake/unstake → `tokenIn` amount if present else 0.  The claim leaves the
amount unspecified for the remaining types (`mint`/`burn`/`unknown`); this
definition uses 0 there, and the counterexample's `tokenPrice = 0` makes
that choice irrelevant. -/
def c2Amount (tx : ParsedTransaction) (tokenMint : String) : ℚ :=
  match tx.type with
  | .swap =>
    if legMint tx.tokenOut = some tokenMint then outAmount tx
    else if legMint tx.tokenIn = some tokenMint then inAmount tx
    else 0
  | .transfer => if legMint tx.transfer = some tokenMint then
      (tx.transfer.map TokenHolder.uiAmount).getD 0 else 0
  | .stake => inAmount tx
  | .unstake => inAmount tx
  | _ => 0

/-- The direction as the claim assigns it: `in` for swap-buys and unstake,
`out` for swap-sells, stake, and all plain transfers. -/
def c2Direction (tx : ParsedTransaction) (tokenMint : String) :
    MovementDirection :=
  match tx.type with
  | .swap =>
    if legMint tx.tokenOut = some tokenMint then .dirIn else .dirOut
  | .unstake => .dirIn
  | _ => .dirOut

/-- The claim's null condition exactly as stated: unrelated, or type
`unknown`, or below the (inclusive) threshold. -/
def c2NullCondStated (tx : ParsedTransaction) (tokenMint : String)
    (tokenPrice : ℚ) (config : WhaleConfig) : Prop :=
  c2Unrelated tx tokenMint ∨ tx.type = .unknown ∨
    c2Amount tx tokenMint * tokenPrice < config.minMovementUsd

/-- The amended null condition: the type disjunct also covers `mint` and
`burn`, which the source's final `else` branch rejects just like
`unknown`. -/
def c2NullCondAmended (tx : ParsedTransaction) (tokenMint : String)
    (tokenPrice : ℚ) (config : WhaleConfig) : Prop :=
  c2Unrelated tx tokenMint ∨
    (tx.type = .unknown ∨ tx.type = .mint ∨ tx.type = .burn) ∨
    c2Amount tx tokenMint * tokenPrice < config.minMovementUsd

/-- C2 (amended): `createMovement` returns `null` exactly when the
transaction is unrelated to the tracked token, or its type is none of
swap/transfer/stake/unstake (`unknown`, `mint` or `burn`), or the USD value
`amount × tokenPrice` is strictly below `config.minMovementUsd` (the
threshold itself is inclusive); a non-null result carries exactly the
claimed amount, USD value and direction. -/
theorem c2_createMovement_characterization (tx : ParsedTransaction)
    (whale tokenMint : String) (tokenPrice : ℚ) (config : WhaleConfig)
    (now : ℚ) :
    (createMovement tx whale tokenMint tokenPrice config now = none ↔
      c2NullCondAmended tx tokenMint tokenPrice config) ∧
    (∀ mv, createMovement tx whale tokenMint tokenPrice config now =
        some mv →
      mv.amount = c2Amount tx tokenMint ∧
      mv.usdValue = c2Amount tx tokenMint * tokenPrice ∧
      mv.direction = c2Direction tx tokenMint ∧
      config.minMovementUsd ≤ mv.usdValue) := by
  unfold createMovement c2NullCondAmended c2Unrelated c2Amount c2Direction
  cases htype : tx.type with
  | swap =>
    by_cases hout : legMint tx.tokenOut = some tokenMint
    · by_cases hsig : config.minMovementUsd ≤ outAmount tx * tokenPrice
      · simp [hout, outAmount, isSignificantMovement, hsig, not_lt.mpr hsig]
      · simp [hout, outAmount, isSignificantMovement, hsig, not_le.mp hsig]
    · by_cases hin : legMint tx.tokenIn = some tokenMint
      · by_cases hsig : config.minMovementUsd ≤ inAmount tx * tokenPrice
        · simp [hout, hin, inAmount, isSignificantMovement, hsig,
            not_lt.mpr hsig]
        · simp [hout, hin, inAmount, isSignificantMovement, hsig,
            not_le.mp hsig]
      · simp [hout, hin]
  | transfer =>
    by_cases htr : legMint tx.transfer = some tokenMint
    · by_cases hsig : config.minMovementUsd ≤
          (tx.transfer.map TokenHolder.uiAmount).getD 0 * tokenPrice
      · simp [htr, isSignificantMovement, hsig, not_lt.mpr hsig]
      · simp [htr, isSignificantMovement, hsig, not_le.mp hsig]
    · simp [htr]
  | stake =>
    by_cases hsig : config.minMovementUsd ≤ inAmount tx * tokenPrice
    · simp [inAmount, isSignificantMovement, hsig, not_lt.mpr hsig]
    · simp [inAmount, isSignificantMovement, hsig, not_le.mp hsig]
  | unstake =>
    by_cases hsig : config.minMovementUsd ≤ inAmount tx * tokenPrice
    · simp [inAmount, isSignificantMovement, hsig, not_lt.mpr hsig]
    · simp [inAmount, isSignificantMovement, hsig, not_le.mp hsig]
  | mint => simp
  | burn => simp
  | unknown => simp

/-- A mint-typed transaction for the C2 counterexample. -/
def c2tx : ParsedTransaction :=
  { signature := "sigmint", timestamp := 5, type := .mint, source := "src"
    fee := 0, success := true }

/-- A configuration with a zero movement threshold. -/
def c2cfg : WhaleConfig :=
  { minWhaleHoldingsUsd := 100000, minMovementUsd := 0
    patternWindowMs := 86400000, minPatternTxCount := 3 }

/-- Counterexample to C2 as stated: for a `mint`-typed transaction with
`tokenPrice = 0` and a zero threshold, none of the claim's enumerated null
conditions holds (the type is not `unknown`, the transaction is neither an
unrelated swap nor a mismatched transfer, and no reading of the USD value
is below the threshold), yet `createMovement` returns `null`. -/
theorem c2_createMovement_counterexample :
    createMovement c2tx "w" "M" 0 c2cfg 0 = none ∧
    ¬ c2NullCondStated c2tx "M" 0 c2cfg := by
  constructor
  · simp [createMovement, c2tx]
  · intro h
    rcases h with h | h | h
    · rcases h with ⟨h1, _⟩ | ⟨h1, _⟩ <;> simp [c2tx] at h1
    · simp [c2tx] at h
    · rw [mul_zero] at h
      have : (0 : ℚ) < c2cfg.minMovementUsd := h
      norm_num [c2cfg] at this

/-- A concrete swap buy at exactly the threshold, for the C2 witness. -/
def c2buyTx : ParsedTransaction :=
  { signature := "sigbuy01", timestamp := 7, type := .swap
    source := "JUPITER", fee := 0, success := true
    tokenOut := some { address := "", mint := "M", amount := 2, decimals := 0
                       uiAmount := 2 }
    tokenIn := some { address := "", mint := "USDC", amount := 100
                      decimals := 0, uiAmount := 100 } }

/-- Witness for C2 at a concrete input: a swap buy worth exactly the default
threshold (2 × 5000 = 10000) is recorded, with direction `in` and the
claimed amount and USD value. -/
theorem c2_createMovement_characterization_witness :
    ∃ mv, createMovement c2buyTx "w" "M" 5000 DEFAULT_WHALE_CONFIG 3 =
        some mv ∧
      mv.amount = 2 ∧ mv.usdValue = 10000 ∧ mv.direction = .dirIn := by
  have hchar := c2_createMovement_characterization c2buyTx "w" "M" 5000
    DEFAULT_WHALE_CONFIG 3
  have hnn : ¬ c2NullCondAmended c2buyTx "M" 5000 DEFAULT_WHALE_CONFIG := by
    intro h
    rcases h with h | h | h
    · rcases h with ⟨_, h2, _⟩ | ⟨h1, _⟩
      · exact h2 (by simp [c2buyTx, legMint])
      · simp [c2buyTx] at h1
    · rcases h with h | h | h <;> simp [c2buyTx] at h
    · rw [show c2Amount c2buyTx "M" = 2 from by
          simp [c2Amount, c2buyTx, legMint, outAmount]] at h
      norm_num [DEFAULT_WHALE_CONFIG] at h
  cases hmv : createMovement c2buyTx "w" "M" 5000 DEFAULT_WHALE_CONFIG 3 with
  | none => exact absurd (hchar.1.mp hmv) hnn
  | some mv =>
    obtain ⟨ha, hu, hd, _⟩ := hchar.2 mv hmv
    refine ⟨mv, rfl, ?_, ?_, ?_⟩
    · rw [ha]
      simp [c2Amount, c2buyTx, legMint, outAmount]
    · rw [hu]
      rw [show c2Amount c2buyTx "M" = 2 from by
        simp [c2Amount, c2buyTx, legMint, outAmount]]
      norm_num
    · rw [hd]
      simp [c2Direction, c2buyTx, legMint]

/-! ## Claim C7 — behavior analysis -/

/-- The claim's buy count: swaps whose `tokenOut` matches, plus transfers
whose mint matches (counted as buys unconditionally). -/
def specBuyCount (tokenMint : String) (l : List ParsedTransaction) : ℕ :=
  (l.filter fun tx =>
    decide (tx.type = .swap ∧ legMint tx.tokenOut = some tokenMint)).length +
  (l.filter fun tx =>
    decide (tx.type = .transfer ∧
      legMint tx.transfer = some tokenMint)).length

/-- The claim's sell count: swaps whose `tokenIn` matches (a swap matching
both legs counts in both tallies). -/
def specSellCount (tokenMint : String) (l : List ParsedTransaction) : ℕ :=
  (l.filter fun tx =>
    decide (tx.type = .swap ∧ legMint tx.tokenIn = some tokenMint)).length

/-- The behavior analysis exactly as the claim describes it.  The
`buys + sells = 0` guard (reachable only when `config.minPatternTxCount ≤ 0`)
spells out the claim's threshold comparisons at an undefined 0/0 ratio: in
the source `0/0 = NaN` fails both `>= 0.7` and `<= 0.3`, giving
`'holding'`. -/
def behaviorSpecC7 (tokenMint : String)
    (transactions : List ParsedTransaction) (config : WhaleConfig)
    (now : ℚ) : WhaleBehavior :=
  let recentTxs := behaviorWindowTxs transactions config now
  if (recentTxs.length : ℚ) < config.minPatternTxCount then .holding
  else
    let buys := specBuyCount tokenMint recentTxs
    let sells := specSellCount tokenMint recentTxs
    if ((buys + sells : ℕ) : ℚ) < config.minPatternTxCount then .holding
    else if buys + sells = 0 then .holding
    else if 7 / 10 ≤ (buys : ℚ) / ((buys + sells : ℕ) : ℚ) then .accumulating
    else if (buys : ℚ) / ((buys + sells : ℕ) : ℚ) ≤ 3 / 10 then .distributing
    else .holding

/-- One transaction's contribution to the buy counter. -/
theorem tallyTx_buyCount (tokenMint : String) (t : BuySellTally)
    (tx : ParsedTransaction) :
    (tallyTx tokenMint t tx).buyCount = t.buyCount +
      ((if tx.type = .swap ∧ legMint tx.tokenOut = some tokenMint then 1
        else 0) +
       (if tx.type = .transfer ∧ legMint tx.transfer = some tokenMint then 1
        else 0)) := by
  unfold tallyTx
  by_cases hsw : tx.type = .swap
  · by_cases hout : legMint tx.tokenOut = some tokenMint
    · by_cases hin : legMint tx.tokenIn = some tokenMint <;>
        simp [hsw, hout, hin]
    · by_cases hin : legMint tx.tokenIn = some tokenMint <;>
        simp [hsw, hout, hin]
  · by_cases htr : tx.type = .transfer ∧ legMint tx.transfer = some tokenMint
    · simp [hsw, htr]
    · simp [hsw, htr]

/-- One transaction's contribution to the sell counter. -/
theorem tallyTx_sellCount (tokenMint : String) (t : BuySellTally)
    (tx : ParsedTransaction) :
    (tallyTx tokenMint t tx).sellCount = t.sellCount +
      (if tx.type = .swap ∧ legMint tx.tokenIn = some tokenMint then 1
        else 0) := by
  unfold tallyTx
  by_cases hsw : tx.type = .swap
  · by_cases hout : legMint tx.tokenOut = some tokenMint
    · by_cases hin : legMint tx.tokenIn = some tokenMint <;>
        simp [hsw, hout, hin]
    · by_cases hin : legMint tx.tokenIn = some tokenMint <;>
        simp [hsw, hout, hin]
  · by_cases htr : tx.type = .transfer ∧ legMint tx.transfer = some tokenMint
    · simp [hsw, htr]
    · simp [hsw, htr]

/-- The fold of `tallyTx` computes exactly the claim's filtered counts. -/
theorem tally_counts (tokenMint : String) :
    ∀ (l : List ParsedTransaction) (t0 : BuySellTally),
      (l.foldl (tallyTx tokenMint) t0).buyCount =
        t0.buyCount + specBuyCount tokenMint l ∧
      (l.foldl (tallyTx tokenMint) t0).sellCount =
        t0.sellCount + specSellCount tokenMint l := by
  intro l
  induction l with
  | nil => intro t0; simp [specBuyCount, specSellCount]
  | cons tx rest ih =>
    intro t0
    rw [List.foldl_cons]
    obtain ⟨ihb, ihs⟩ := ih (tallyTx tokenMint t0 tx)
    constructor
    · rw [ihb, tallyTx_buyCount]
      unfold specBuyCount
      simp only [List.filter_cons]
      by_cases h1 : tx.type = .swap ∧ legMint tx.tokenOut = some tokenMint <;>
        by_cases h2 : tx.type = .transfer ∧
          legMint tx.transfer = some tokenMint <;>
        simp [h1, h2] <;> omega
    · rw [ihs, tallyTx_sellCount]
      unfold specSellCount
      simp only [List.filter_cons]
      by_cases h1 : tx.type = .swap ∧ legMint tx.tokenIn = some tokenMint
      · simp [h1]
        try omega
      · simp [h1]
        try omega

/-- C7: `analyzeWhaleBehavior` implements the claim's description — window
restriction, minimum-count guards, double-counting swaps that match both
legs, transfers counted as buys, and the 0.7/0.3 buy-ratio thresholds. -/
theorem c7_behavior_analysis (walletAddress tokenMint : String)
    (transactions : List ParsedTransaction) (config : WhaleConfig)
    (now : ℚ) :
    analyzeWhaleBehavior walletAddress tokenMint transactions config now =
      behaviorSpecC7 tokenMint transactions config now := by
  unfold analyzeWhaleBehavior behaviorSpecC7
  obtain ⟨hb, hs⟩ := tally_counts tokenMint
    (behaviorWindowTxs transactions config now) ⟨0, 0, 0, 0⟩
  simp only [hb, hs, Nat.zero_add]

/-- Three concrete swap buys inside the window, for the C7 witness. -/
def c7buy : ParsedTransaction :=
  { signature := "c7b", timestamp := 1700000000, type := .swap
    source := "JUPITER", fee := 0, success := true
    tokenOut := some { address := "", mint := "M", amount := 5, decimals := 0
                       uiAmount := 5 } }

/-- Witness for C7 at a concrete input: three buys and no sells inside the
window give `accumulating` on both sides of the equivalence. -/
theorem c7_behavior_analysis_witness :
    analyzeWhaleBehavior "w" "M" [c7buy, c7buy, c7buy] DEFAULT_WHALE_CONFIG
        1700000000000 = .accumulating ∧
    behaviorSpecC7 "M" [c7buy, c7buy, c7buy] DEFAULT_WHALE_CONFIG
        1700000000000 = .accumulating := by
  have heq := c7_behavior_analysis "w" "M" [c7buy, c7buy, c7buy]
    DEFAULT_WHALE_CONFIG 1700000000000
  have hspec : behaviorSpecC7 "M" [c7buy, c7buy, c7buy] DEFAULT_WHALE_CONFIG
      1700000000000 = .accumulating := by
    have hwin : behaviorWindowTxs [c7buy, c7buy, c7buy] DEFAULT_WHALE_CONFIG
        1700000000000 = [c7buy, c7buy, c7buy] := by
      norm_num [behaviorWindowTxs, c7buy, DEFAULT_WHALE_CONFIG]
    have hbc : specBuyCount "M" [c7buy, c7buy, c7buy] = 3 := by
      simp [specBuyCount, List.filter, c7buy, legMint]
    have hsc : specSellCount "M" [c7buy, c7buy, c7buy] = 0 := by
      simp [specSellCount, List.filter, c7buy, legMint]
    unfold behaviorSpecC7
    rw [hwin]
    simp only [hbc, hsc]
    norm_num [DEFAULT_WHALE_CONFIG]
  exact ⟨heq.trans hspec, hspec⟩

/-! ## Claim C3 — confidence clamping -/

/-- A JS number lies in the unit interval (in particular it is finite —
neither infinite nor `NaN`). -/
def JsNum.inUnit : JsNum → Prop
  | .fin x => 0 ≤ x ∧ x ≤ 1
  | _ => False

/-- Sums of squares accumulate nonnegatively. -/
theorem foldl_add_sq_nonneg (g : ParsedTransaction → ℚ) :
    ∀ (l : List ParsedTransaction) (acc : ℚ), 0 ≤ acc →
      0 ≤ l.foldl (fun sum tx => sum + g tx * g tx) acc := by
  intro l
  induction l with
  | nil => intro acc h; simpa using h
  | cons tx rest ih =>
    intro acc h
    rw [List.foldl_cons]
    exact ih _ (add_nonneg h (mul_self_nonneg _))

/-- The computed variance of buy sizes is nonnegative. -/
theorem accVariance_nonneg (tokenMint : String)
    (transactions : List ParsedTransaction) (config : WhaleConfig)
    (now : ℚ) : 0 ≤ accVariance tokenMint transactions config now := by
  unfold accVariance
  exact div_nonneg (foldl_add_sq_nonneg _ _ 0 le_rfl) (Nat.cast_nonneg _)

/-- The computed variance of sell sizes is nonnegative. -/
theorem distVariance_nonneg (tokenMint : String)
    (transactions : List ParsedTransaction) (config : WhaleConfig)
    (now : ℚ) : 0 ≤ distVariance tokenMint transactions config now := by
  unfold distVariance
  exact div_nonneg (foldl_add_sq_nonneg _ _ 0 le_rfl) (Nat.cast_nonneg _)

/-- With a nonzero mean the clamped confidence is finite and lies in
`[0, 1]`. -/
theorem jsConfidence_mem_unit (v a : ℚ) (ha : a ≠ 0) :
    JsNum.inUnit (jsConfidence v a) := by
  unfold jsConfidence jsDiv
  have ha' : (a : ℝ) ≠ 0 := by exact_mod_cast ha
  rw [if_pos ha']
  unfold jsOneSub jsMin1 jsMax0 JsNum.inUnit
  exact ⟨le_max_left 0 _, max_le (by norm_num) (min_le_left 1 _)⟩

/-- A coefficient of variation exceeding 1 clamps the confidence to exactly
`0`. -/
theorem jsConfidence_cv_gt_one (v a : ℚ)
    (h : 1 < Real.sqrt (v : ℝ) / (a : ℝ)) : jsConfidence v a = .fin 0 := by
  have ha' : (a : ℝ) ≠ 0 := by
    intro h0
    rw [h0, div_zero] at h
    norm_num at h
  unfold jsConfidence jsDiv
  rw [if_pos ha']
  simp only [jsOneSub, jsMin1, jsMax0]
  have h1 : 1 - Real.sqrt (v : ℝ) / (a : ℝ) < 0 := by linarith
  rw [min_eq_right (by linarith), max_eq_left (le_of_lt h1)]

/-- C3 (amended): provided
`0 < config.minMovementUsd * config.minPatternTxCount` (true of the default
configuration), every pattern returned by `detectAccumulationPattern` or
`detectDistributionPattern` has a finite confidence in `[0, 1]`, and
whenever the coefficient of variation `stdDev / mean` of the qualifying
trade sizes exceeds 1 the confidence is exactly `0`.  (Without the
positivity hypothesis the all-zero-trade degenerate case yields a `NaN`
confidence, see the counterexample.) -/
theorem c3_confidence_clamped (walletAddress tokenMint : String)
    (transactions : List ParsedTransaction) (tokenPrice : ℚ)
    (config : WhaleConfig) (now : ℚ)
    (hpos : 0 < config.minMovementUsd * config.minPatternTxCount) :
    (∀ pat, detectAccumulationPattern walletAddress tokenMint transactions
        tokenPrice config now = some pat →
      JsNum.inUnit pat.confidence ∧
      (1 < Real.sqrt ((accVariance tokenMint transactions config now : ℚ) :
          ℝ) / ((accAvgSize tokenMint transactions config now : ℚ) : ℝ) →
        pat.confidence = .fin 0)) ∧
    (∀ pat, detectDistributionPattern walletAddress tokenMint transactions
        tokenPrice config now = some pat →
      JsNum.inUnit pat.confidence ∧
      (1 < Real.sqrt ((distVariance tokenMint transactions config now : ℚ) :
          ℝ) / ((distAvgSize tokenMint transactions config now : ℚ) : ℝ) →
        pat.confidence = .fin 0)) := by
  constructor
  · intro pat hpat
    unfold detectAccumulationPattern at hpat
    by_cases h1 : ((accumulationBuys tokenMint transactions config
        now).length : ℚ) < config.minPatternTxCount
    · rw [if_pos h1] at hpat
      exact absurd hpat (by simp)
    · rw [if_neg h1] at hpat
      by_cases h2 : accTotalAmount tokenMint transactions config now *
          tokenPrice < config.minMovementUsd * config.minPatternTxCount
      · rw [if_pos h2] at hpat
        exact absurd hpat (by simp)
      · rw [if_neg h2] at hpat
        have hne : accAvgSize tokenMint transactions config now ≠ 0 := by
          have htot : accTotalAmount tokenMint transactions config now ≠ 0 := by
            intro h0
            rw [h0, zero_mul] at h2
            exact h2 hpos
          have hlen : ((accumulationBuys tokenMint transactions config
              now).length : ℚ) ≠ 0 := by
            intro h0
            have hnil : accumulationBuys tokenMint transactions config now =
                [] := List.length_eq_zero.mp (by exact_mod_cast h0)
            have : accTotalAmount tokenMint transactions config now = 0 := by
              unfold accTotalAmount
              rw [hnil]
              rfl
            exact htot this
          unfold accAvgSize
          exact div_ne_zero htot hlen
        obtain rfl : pat = _ := (Option.some.inj hpat).symm
        refine ⟨jsConfidence_mem_unit _ _ hne, ?_⟩
        intro hcv
        exact jsConfidence_cv_gt_one _ _ hcv
  · intro pat hpat
    unfold detectDistributionPattern at hpat
    by_cases h1 : ((distributionSells tokenMint transactions config
        now).length : ℚ) < config.minPatternTxCount
    · rw [if_pos h1] at hpat
      exact absurd hpat (by simp)
    · rw [if_neg h1] at hpat
      by_cases h2 : distTotalAmount tokenMint transactions config now *
          tokenPrice < config.minMovementUsd * config.minPatternTxCount
      · rw [if_pos h2] at hpat
        exact absurd hpat (by simp)
      · rw [if_neg h2] at hpat
        have hne : distAvgSize tokenMint transactions config now ≠ 0 := by
          have htot : distTotalAmount tokenMint transactions config now ≠ 0 := by
            intro h0
            rw [h0, zero_mul] at h2
            exact h2 hpos
          have hlen : ((distributionSells tokenMint transactions config
              now).length : ℚ) ≠ 0 := by
            intro h0
            have hnil : distributionSells tokenMint transactions config now =
                [] := List.length_eq_zero.mp (by exact_mod_cast h0)
            have : distTotalAmount tokenMint transactions config now = 0 := by
              unfold distTotalAmount
              rw [hnil]
              rfl
            exact htot this
          unfold distAvgSize
          exact div_ne_zero htot hlen
        obtain rfl : pat = _ := (Option.some.inj hpat).symm
        refine ⟨jsConfidence_mem_unit _ _ hne, ?_⟩
        intro hcv
        exact jsConfidence_cv_gt_one _ _ hcv

/-- A qualifying swap buy with trade size 0, for the C3 counterexample. -/
def c3tx : ParsedTransaction :=
  { signature := "c3sig", timestamp := 0, type := .swap, source := "J"
    fee := 0, success := true
    tokenOut := some { address := "", mint := "M", amount := 0, decimals := 0
                       uiAmount := 0 } }

/-- A configuration with a zero movement threshold (`minMovementUsd = 0`)
and a one-transaction pattern minimum. -/
def c3cfg : WhaleConfig :=
  { minWhaleHoldingsUsd := 100000, minMovementUsd := 0
    patternWindowMs := 86400000, minPatternTxCount := 1 }

/-- `0/0` inside the confidence pipeline is `NaN`, which the `Math.min` /
`Math.max` clamp propagates. -/
theorem jsConfidence_zero_zero : jsConfidence 0 0 = JsNum.nan := by
  unfold jsConfidence jsDiv
  rw [if_neg (by norm_num), if_neg (by norm_num [Real.sqrt_zero]),
    if_neg (by norm_num [Real.sqrt_zero])]
  rfl

/-- Counterexample to C3 as stated: with a zero threshold and a single
qualifying buy of size 0 (the degenerate mean-zero case the claim covers),
`detectAccumulationPattern` returns a pattern whose confidence is `NaN` —
an undefined value outside `[0, 1]` and different from 0. -/
theorem c3_confidence_clamped_counterexample :
    (detectAccumulationPattern "w" "M" [c3tx] 0 c3cfg 0).map
        Pattern.confidence = some JsNum.nan ∧
    ¬ JsNum.inUnit JsNum.nan ∧ JsNum.nan ≠ JsNum.fin 0 := by
  refine ⟨?_, fun h => h, fun h => JsNum.noConfusion h⟩
  have hbuys : accumulationBuys "M" [c3tx] c3cfg 0 = [c3tx] := by
    norm_num [accumulationBuys, c3tx, c3cfg, legMint]
  have htot : accTotalAmount "M" [c3tx] c3cfg 0 = 0 := by
    unfold accTotalAmount
    rw [hbuys]
    norm_num [outAmount, c3tx]
  have havg : accAvgSize "M" [c3tx] c3cfg 0 = 0 := by
    unfold accAvgSize
    rw [htot, hbuys]
    norm_num
  have hvar : accVariance "M" [c3tx] c3cfg 0 = 0 := by
    unfold accVariance
    rw [hbuys, havg]
    norm_num [outAmount, c3tx]
  unfold detectAccumulationPattern
  rw [hbuys, htot, hvar, havg]
  rw [if_neg (by norm_num [c3cfg]), if_neg (by norm_num [c3cfg])]
  simp [jsConfidence_zero_zero]

/-- A qualifying swap buy of size 2 inside the window, for the C3 witness. -/
def c3buy : ParsedTransaction :=
  { signature := "c3w", timestamp := 1, type := .swap, source := "JUPITER"
    fee := 0, success := true
    tokenOut := some { address := "", mint := "M", amount := 2, decimals := 0
                       uiAmount := 2 } }

/-- The pattern `detectAccumulationPattern` builds for three `c3buy`s at
price 5000 under the default configuration. -/
noncomputable def c3wpat : Pattern :=
  { whale := "w"
    tokenMint := "M"
    type := .accumulation
    txCount := (accumulationBuys "M" [c3buy, c3buy, c3buy]
      DEFAULT_WHALE_CONFIG 0).length
    totalAmount := accTotalAmount "M" [c3buy, c3buy, c3buy]
      DEFAULT_WHALE_CONFIG 0
    totalUsdValue := accTotalAmount "M" [c3buy, c3buy, c3buy]
      DEFAULT_WHALE_CONFIG 0 * 5000
    startTime := jsMul1000 (jsMinList ((accumulationBuys "M"
      [c3buy, c3buy, c3buy] DEFAULT_WHALE_CONFIG 0).map
        ParsedTransaction.timestamp))
    endTime := jsMul1000 (jsMaxList ((accumulationBuys "M"
      [c3buy, c3buy, c3buy] DEFAULT_WHALE_CONFIG 0).map
        ParsedTransaction.timestamp))
    confidence := jsConfidence
      (accVariance "M" [c3buy, c3buy, c3buy] DEFAULT_WHALE_CONFIG 0)
      (accAvgSize "M" [c3buy, c3buy, c3buy] DEFAULT_WHALE_CONFIG 0) }

/-- Witness for the amended C3: three equal-size buys (total 6 × $5000 =
$30000, exactly the combined-volume gate) yield a pattern whose confidence
is finite and in `[0, 1]`. -/
theorem c3_confidence_clamped_witness :
    JsNum.inUnit
      (Pattern.confidence c3wpat) := by
  have hbuys : accumulationBuys "M" [c3buy, c3buy, c3buy]
      DEFAULT_WHALE_CONFIG 0 = [c3buy, c3buy, c3buy] := by
    norm_num [accumulationBuys, c3buy, DEFAULT_WHALE_CONFIG, legMint]
  have htot : accTotalAmount "M" [c3buy, c3buy, c3buy]
      DEFAULT_WHALE_CONFIG 0 = 6 := by
    unfold accTotalAmount
    rw [hbuys]
    norm_num [outAmount, c3buy]
  have heval : detectAccumulationPattern "w" "M" [c3buy, c3buy, c3buy] 5000
      DEFAULT_WHALE_CONFIG 0 = some c3wpat := by
    unfold detectAccumulationPattern c3wpat
    rw [if_neg, if_neg]
    · rw [htot]
      norm_num [DEFAULT_WHALE_CONFIG]
    · rw [hbuys]
      norm_num [DEFAULT_WHALE_CONFIG]
  exact ((c3_confidence_clamped "w" "M" [c3buy, c3buy, c3buy] 5000
    DEFAULT_WHALE_CONFIG 0 (by norm_num [DEFAULT_WHALE_CONFIG])).1 c3wpat
    heval).1

end WhaleScope
